import Mathlib

/-
  Verification of the evently-cloud/rest-api service against its specification.

  The TypeScript sources are shallowly embedded: JavaScript objects whose key
  order is observable are modelled as association lists (`List (String × _)`),
  `undefined` / optional fields as `Option`, thrown `http-errors` exceptions as
  `Except HttpErr`, and the msgpackr URI-token layer as the compressed record it
  (deterministically and injectively) serializes, so that a URI token is
  identified with the compressed selector form it encodes.
-/

namespace Evently

/-- JSON values as JavaScript sees them: object fields keep insertion order,
so an object is an association list of fields.  Numbers are modelled as
integers (no claim in this development depends on float behaviour). -/
inductive JsonVal where
  | null
  | bool (b : Bool)
  | num (n : Int)
  | str (s : String)
  | arr (elems : List JsonVal)
  | obj (fields : List (String × JsonVal))
deriving Repr

/-- The `vars` object of a JSONPath filter (`UnknownObject` in types.ts). -/
abbrev Vars := List (String × JsonVal)

/-! ### Key-sorted association lists

`Object.keys(o).sort()` sorts keys lexicographically; `sortPairs` is the
corresponding insertion sort on association lists, comparing only keys. -/

/-- Insert a pair into a key-sorted association list, before the first entry
whose key is not below it. -/
def insertPair (p : String × α) : List (String × α) → List (String × α)
  | [] => [p]
  | q :: qs => if p.1 ≤ q.1 then p :: q :: qs else q :: insertPair p qs

/-- Sort an association list by key (insertion sort). -/
def sortPairs : List (String × α) → List (String × α)
  | [] => []
  | p :: ps => insertPair p (sortPairs ps)

theorem insertPair_perm (p : String × α) (l : List (String × α)) :
    List.Perm (insertPair p l) (p :: l) := by
  induction l with
  | nil => simp [insertPair]
  | cons q qs ih =>
    by_cases h : p.1 ≤ q.1
    · simp [insertPair, h]
    · simp only [insertPair, h, if_false]
      exact ((ih.cons q).trans (List.Perm.swap p q qs))

theorem sortPairs_perm (l : List (String × α)) : List.Perm (sortPairs l) l := by
  induction l with
  | nil => simp [sortPairs]
  | cons p ps ih => exact (insertPair_perm p (sortPairs ps)).trans (ih.cons p)

theorem mem_sortPairs {l : List (String × α)} {q : String × α} :
    q ∈ sortPairs l ↔ q ∈ l :=
  (sortPairs_perm l).mem_iff

theorem sortPairs_eq_nil_iff {l : List (String × α)} : sortPairs l = [] ↔ l = [] := by
  constructor
  · intro h
    have := (sortPairs_perm l).symm
    rw [h] at this
    exact this.eq_nil
  · intro h; subst h; rfl

theorem insertPair_map (g : String → α → β) (p : String × α) (l : List (String × α)) :
    insertPair (p.1, g p.1 p.2) (l.map (fun q => (q.1, g q.1 q.2)))
      = (insertPair p l).map (fun q => (q.1, g q.1 q.2)) := by
  induction l with
  | nil => simp [insertPair]
  | cons q qs ih =>
    by_cases h : p.1 ≤ q.1
    · simp [insertPair, h]
    · simp [insertPair, h, ih]

/-- Sorting by key commutes with any key-preserving map of the values. -/
theorem sortPairs_map (g : String → α → β) (l : List (String × α)) :
    sortPairs (l.map (fun q => (q.1, g q.1 q.2)))
      = (sortPairs l).map (fun q => (q.1, g q.1 q.2)) := by
  induction l with
  | nil => simp [sortPairs]
  | cons p ps ih => simp [sortPairs, ih, insertPair_map]

/-! ### selector-utils.ts: `sortObject` / `sortUnknown`

`sortObject` sorts an object's keys and recursively canonicalizes the values;
`sortUnknown` recurses through arrays and objects and leaves primitives alone.
(The `Object.isFrozen` short-circuit in the source is a memo of "already
canonicalized" and has no effect on unfrozen inputs, which is what every
decoded request body is; the model therefore omits the frozen flag.  The
source sorts keys before canonicalizing values; the model canonicalizes
values first, which yields the same list because the sort compares keys
only.) -/

mutual

def sortUnknown : JsonVal → JsonVal
  | .null => .null
  | .bool b => .bool b
  | .num n => .num n
  | .str s => .str s
  | .arr xs => .arr (sortValList xs)
  | .obj fs => .obj (sortPairs (sortFieldVals fs))

def sortValList : List JsonVal → List JsonVal
  | [] => []
  | x :: xs => sortUnknown x :: sortValList xs

def sortFieldVals : List (String × JsonVal) → List (String × JsonVal)
  | [] => []
  | f :: fs => (f.1, sortUnknown f.2) :: sortFieldVals fs

end

/-- `sortObject` of selector-utils.ts, specialized to a `vars` object. -/
def sortObject (fs : Vars) : Vars := sortPairs (sortFieldVals fs)

/-! ### eventId-utils.ts: the 16-byte event-id codec

An `EventID` is `{timestamp: Long, checksum: u32, ledgerId: 8 hex chars}`.
The 16-byte buffer (8-byte timestamp, 4-byte checksum, 4-byte ledger id, all
big-endian) is modelled by the three numbers it stores. -/

/-- Numeric value of a hex digit, case-insensitive as in `Number.parseInt`. -/
def hexDigitVal? (c : Char) : Option Nat :=
  if 48 ≤ c.toNat ∧ c.toNat ≤ 57 then some (c.toNat - 48)
  else if 97 ≤ c.toNat ∧ c.toNat ≤ 102 then some (c.toNat - 87)
  else if 65 ≤ c.toNat ∧ c.toNat ≤ 70 then some (c.toNat - 55)
  else none

/-- `n.toString(16)` for a natural number (lowercase hex digits). -/
def natToHex (n : Nat) : String := String.mk (Nat.toDigits 16 n)

/-- `str.padStart(w, "0")`. -/
def padZeros (w : Nat) (s : String) : String :=
  String.mk (List.replicate (w - s.length) '0' ++ s.toList)

/-- `n.toString(16).padStart(8, "0")`, the hex form of one 4-byte field. -/
def toHex8 (n : Nat) : String := padZeros 8 (natToHex n)

/-- `n.toString(16).padStart(16, "0")`, the hex form of the 8-byte timestamp. -/
def toHex16 (n : Nat) : String := padZeros 16 (natToHex n)

def parseHexGo : List Char → Nat → Nat
  | [], acc => acc
  | c :: cs, acc =>
    match hexDigitVal? c with
    | some d => parseHexGo cs (16 * acc + d)
    | none => acc

/-- `Number.parseInt(s, 16)` on its defined domain: the value of the longest
hex-digit prefix of `s` (sign/whitespace/NaN handling is outside the model;
ledger ids fed to it are plain hex strings). -/
def parseHexNat (s : String) : Nat := parseHexGo s.toList 0

/-- `EventID` of types.ts.  `timestamp` models the 64-bit `Long`, `checksum`
the unsigned 32-bit checksum. -/
structure EventID where
  timestamp : Nat
  checksum : Nat
  ledgerId : String
deriving Repr, DecidableEq

/-- Content of the 16-byte buffer built by `eventIdPartsToBuffer`:
the three big-endian fields it stores.  The `% 2 ^ _` reflect the fixed
field widths of the buffer. -/
structure EventIdBytes where
  tsBytes : Nat
  ckBytes : Nat
  ledgerBytes : Nat
deriving Repr, DecidableEq

/-- `toEventIdBytes` of eventId-utils.ts. -/
def toEventIdBytes (e : EventID) : EventIdBytes :=
  ⟨e.timestamp % 2 ^ 64, e.checksum % 2 ^ 32, parseHexNat e.ledgerId % 2 ^ 32⟩

/-- `fromEventIdBytes` of eventId-utils.ts (the buffer is 16 bytes by type). -/
def fromEventIdBytes (b : EventIdBytes) : EventID :=
  ⟨b.tsBytes, b.ckBytes, toHex8 b.ledgerBytes⟩

/-- `toEventIdString` of eventId-utils.ts: the 32-char lowercase hex form. -/
def toEventIdString (ts ck : Nat) (ledgerId : String) : String :=
  toHex16 (ts % 2 ^ 64) ++ toHex8 (ck % 2 ^ 32) ++ toHex8 (parseHexNat ledgerId % 2 ^ 32)

/-- Well-formedness of an `EventID` as the data model states it: the
timestamp fits a 64-bit Long, the checksum is u32, and the ledger id is the
canonical (8 lowercase hex chars) form of its 32-bit value. -/
def eventIdWF (a : EventID) : Bool :=
  decide (a.timestamp < 2 ^ 64) && decide (a.checksum < 2 ^ 32)
    && (toHex8 (parseHexNat a.ledgerId % 2 ^ 32) == a.ledgerId)

theorem fromEventIdBytes_toEventIdBytes {a : EventID} (h : eventIdWF a = true) :
    fromEventIdBytes (toEventIdBytes a) = a := by
  obtain ⟨t, c, lid⟩ := a
  simp only [eventIdWF, Bool.and_eq_true, decide_eq_true_eq, beq_iff_eq] at h
  obtain ⟨⟨hts, hck⟩, hlid⟩ := h
  simp only [fromEventIdBytes, toEventIdBytes, EventID.mk.injEq]
  exact ⟨Nat.mod_eq_of_lt hts, Nat.mod_eq_of_lt hck, hlid⟩

/-! ### types.ts: selectors -/

/-- `JsonpathFilter` of types.ts: `{query, vars?}`. -/
structure JsonpathFilter where
  query : String
  vars : Option Vars
deriving Repr

/-- A selector.  types.ts splits this into `Selector` (`after?`, `limit?`)
and `FilterSelector` (adds `entities?`, `meta?`, `events?`); at runtime both
are plain objects distinguished by `isFilterSelector`, so one record with
optional fields is the faithful model.  `limit` is an `Int` because the
encoder's `includeInCompressed` tests `value > 0` on an arbitrary number. -/
structure Selector where
  entities : Option (List (String × List String)) := none
  meta : Option JsonpathFilter := none
  events : Option (List (String × JsonpathFilter)) := none
  after : Option EventID := none
  limit : Option Int := none
deriving Repr

/-- `isFilterSelector` of selector-utils.ts. -/
def isFilterSelector (s : Selector) : Bool :=
  s.entities.isSome || s.meta.isSome || s.events.isSome

/-- `isPlainSelector` of selector-utils.ts. -/
def isPlainSelector (s : Selector) : Bool := !isFilterSelector s

/-! ### api-utils.ts + selector-utils.ts: the URI-token codec

`toURIPart` packs the compressed record with msgpackr (deterministic,
injective) and base64url-encodes it; `fromURIPart` is its inverse.  The model
identifies a token with the compressed record it encodes, so `toURIPart` is
the identity and the encoder functions below return the compressed record. -/

/-- Compressed `{q, v?}` form of a JSONPath filter after `pickBy`. -/
structure CompressedJsonpath where
  q : Option String
  v : Option Vars
deriving Repr

/-- The compressed selector record `{e?, m?, d?, a?, l?}`. -/
structure CompressedSelector where
  e : Option (List (String × List String)) := none
  m : Option CompressedJsonpath := none
  d : Option (List (String × CompressedJsonpath)) := none
  a : Option EventIdBytes := none
  l : Option Int := none
deriving Repr

/-- `includeInCompressed` on a string value: lodash `isEmpty` keeps only
non-empty strings. -/
def includeStr (s : String) : Option String := if s = "" then none else some s

/-- `includeInCompressed` on an object/array value: keep only non-empty. -/
def includeList (l : List α) : Option (List α) := if l.isEmpty then none else some l

/-- `includeInCompressed` on the integer `limit`: keep only positive values. -/
def includeLimit (n : Int) : Option Int := if 0 < n then some n else none

/-- `jsonpathToCompressedJsonpath` of selector-utils.ts. -/
def jsonpathToCompressedJsonpath (f : JsonpathFilter) : CompressedJsonpath :=
  { q := includeStr f.query
    v := f.vars.bind (fun v => includeList (sortObject v)) }

/-- lodash `isEmpty` on a compressed `{q?, v?}` object: no kept keys. -/
def compressedJsonpathIsEmpty (c : CompressedJsonpath) : Bool :=
  c.q.isNone && c.v.isNone

/-- `eventsToCompressedData` of selector-utils.ts: compress each per-event
filter, then `sortObject` the record (whose values are already frozen in
canonical form, so only the keys get sorted). -/
def eventsToCompressedData (d : List (String × JsonpathFilter)) :
    List (String × CompressedJsonpath) :=
  sortPairs (d.map (fun p => (p.1, jsonpathToCompressedJsonpath p.2)))

/-- `encodeFilterSelector` of selector-utils.ts (up to the msgpackr layer).
`sortObject(entities)` sorts the entity names; its values are string arrays,
which `sortUnknown` maps through unchanged. -/
def encodeFilterSelector (s : Selector) : CompressedSelector :=
  { e := s.entities.bind (fun e => includeList (sortPairs e))
    m := s.meta.bind (fun f =>
      let c := jsonpathToCompressedJsonpath f
      if compressedJsonpathIsEmpty c then none else some c)
    d := s.events.bind (fun d => includeList (eventsToCompressedData d))
    a := s.after.map toEventIdBytes
    l := s.limit.bind includeLimit }

/-- `encodeSelector` of selector-utils.ts (plain selectors). -/
def encodeSelector (s : Selector) : CompressedSelector :=
  { a := s.after.map toEventIdBytes
    l := s.limit.bind includeLimit }

/-- `encodeUnknownSelector` of selector-utils.ts. -/
def encodeUnknownSelector (s : Selector) : CompressedSelector :=
  if isFilterSelector s then encodeFilterSelector s else encodeSelector s

/-- A thrown `http-errors` error: status code and message. -/
structure HttpErr where
  status : Nat
  message : String
deriving Repr, DecidableEq

/-- `createHttpError.BadRequest`. -/
def badRequest (msg : String) : HttpErr := ⟨400, msg⟩

/-- `createHttpError.UnprocessableEntity`. -/
def unprocessable (msg : String) : HttpErr := ⟨422, msg⟩

/-- `createHttpError.NotFound`. -/
def notFound (msg : String) : HttpErr := ⟨404, msg⟩

/-- `limitSpec`: optional integer constrained `above(0)`. -/
def verifyLimit : Option Int → Bool
  | none => true
  | some n => decide (0 < n)

/-- `nonEmptyStringArraySpec`: a non-empty array of non-empty strings. -/
def verifyNonEmptyStringArray (ks : List String) : Bool :=
  !ks.isEmpty && ks.all (fun k => k != "")

/-- `compressedJsonpathSpec`: `q` is a required string, `v` optional. -/
def verifyCompressedJsonpath (c : CompressedJsonpath) : Bool := c.q.isSome

/-- `verifyCompressed compressedFilterSpec`. -/
def verifyCompressedFilter (c : CompressedSelector) : Bool :=
  (match c.e with
   | none => true
   | some e => e.all (fun p => verifyNonEmptyStringArray p.2)) &&
  (match c.m with
   | none => true
   | some m => verifyCompressedJsonpath m) &&
  (match c.d with
   | none => true
   | some d => d.all (fun p => verifyCompressedJsonpath p.2)) &&
  verifyLimit c.l

/-- `verifyCompressed compressedSelectorSpec`. -/
def verifyCompressedSelector (c : CompressedSelector) : Bool := verifyLimit c.l

/-- `compressedJsonpathToJsonpath` of selector-utils.ts; runs after the spec
verified that `q` is present. -/
def compressedJsonpathToJsonpath (c : CompressedJsonpath) : JsonpathFilter :=
  { query := c.q.getD "", vars := c.v }

/-- `compressedDataToEvents` of selector-utils.ts. -/
def compressedDataToEvents (d : List (String × CompressedJsonpath)) :
    List (String × JsonpathFilter) :=
  d.map (fun p => (p.1, compressedJsonpathToJsonpath p.2))

/-- `compressedFilterToSelector` of selector-utils.ts. -/
def compressedFilterToSelector (c : CompressedSelector) : Except HttpErr Selector :=
  if verifyCompressedFilter c then
    .ok { entities := c.e
          meta := c.m.map compressedJsonpathToJsonpath
          events := c.d.map compressedDataToEvents
          after := c.a.map fromEventIdBytes
          limit := c.l }
  else .error (badRequest "verification failed")

/-- `compressedSelectorToSelector` of selector-utils.ts. -/
def compressedSelectorToSelector (c : CompressedSelector) : Except HttpErr Selector :=
  if verifyCompressedSelector c then
    .ok { after := c.a.map fromEventIdBytes, limit := c.l }
  else .error (badRequest "verification failed")

/-- `decodeSelector` of selector-utils.ts: a token holding any of `e`, `m`,
`d` decodes as a filter selector (JavaScript truthiness of a present object
field), otherwise as a plain selector. -/
def decodeSelector (c : CompressedSelector) : Except HttpErr Selector :=
  if c.e.isSome || c.m.isSome || c.d.isSome then compressedFilterToSelector c
  else compressedSelectorToSelector c

/-! ### Canonical form of a selector, as the specification words it:
keys of `entities`, `meta.vars` and `events` are sorted lexicographically
(recursively), empty containers and zero/absent limits are dropped. -/

/-- Canonical form of one JSONPath filter: `vars` sorted recursively and
dropped when empty. -/
def canonicalizeJsonpath (f : JsonpathFilter) : JsonpathFilter :=
  { query := f.query, vars := f.vars.bind (fun v => includeList (sortObject v)) }

/-- Canonical form of a selector per the specification: sorted keys, no empty
containers, no non-positive limit. -/
def canonicalizeSelector (s : Selector) : Selector :=
  { entities := s.entities.bind (fun e => includeList (sortPairs e))
    meta := s.meta.map canonicalizeJsonpath
    events := s.events.bind (fun d =>
      includeList ((sortPairs d).map (fun p => (p.1, canonicalizeJsonpath p.2))))
    after := s.after
    limit := s.limit.bind includeLimit }

/-- Well-formedness of a selector per the data model: entity key lists are
non-empty lists of non-empty strings, JSONPath queries are non-empty, and the
`after` event id is well-formed.  (These are the constraints the request
schemas and the `specified` decoding specs impose.) -/
def selectorWF (s : Selector) : Bool :=
  (s.entities.all (fun e => e.all (fun p => verifyNonEmptyStringArray p.2))) &&
  (s.meta.all (fun f => f.query != "")) &&
  (s.events.all (fun d => d.all (fun p => p.2.query != ""))) &&
  (s.after.all eventIdWF)

/-- The compressed record of an already-canonical selector: every field goes
through unchanged (used to factor the encoder through canonicalization). -/
def compressedOfCanonical (c : Selector) : CompressedSelector :=
  { e := c.entities
    m := c.meta.map (fun f => ⟨some f.query, f.vars⟩)
    d := c.events.map (fun d =>
      d.map (fun p => (p.1, (⟨some p.2.query, p.2.vars⟩ : CompressedJsonpath))))
    a := c.after.map toEventIdBytes
    l := c.limit }

theorem includeList_map (f : α → β) (l : List α) :
    includeList (l.map f) = (includeList l).map (fun x => x.map f) := by
  cases l <;> simp [includeList]

theorem includeList_eq (l : List α) :
    (includeList l = none ∧ l = []) ∨ includeList l = some l := by
  cases l <;> simp [includeList]

theorem eventsToCompressedData_eq (d : List (String × JsonpathFilter)) :
    eventsToCompressedData d
      = (sortPairs d).map (fun p => (p.1, jsonpathToCompressedJsonpath p.2)) := by
  simpa using sortPairs_map (fun _ v => jsonpathToCompressedJsonpath v) d

theorem encode_m_field (meta : Option JsonpathFilter)
    (hm : meta.all (fun f => f.query != "") = true) :
    (meta.bind fun f =>
      let c := jsonpathToCompressedJsonpath f
      if compressedJsonpathIsEmpty c then none else some c)
      = (meta.map canonicalizeJsonpath).map
          (fun f => (⟨some f.query, f.vars⟩ : CompressedJsonpath)) := by
  cases meta with
  | none => rfl
  | some f =>
    have hq : f.query ≠ "" := by simpa [Option.all] using hm
    simp [jsonpathToCompressedJsonpath, includeStr, hq,
      compressedJsonpathIsEmpty, canonicalizeJsonpath, Option.bind]

theorem encode_d_field (events : Option (List (String × JsonpathFilter)))
    (hd : events.all (fun d => d.all (fun p => p.2.query != "")) = true) :
    (events.bind fun d => includeList (eventsToCompressedData d))
      = (events.bind fun d =>
          includeList ((sortPairs d).map (fun p => (p.1, canonicalizeJsonpath p.2)))).map
            (fun d => d.map
              (fun p => (p.1, (⟨some p.2.query, p.2.vars⟩ : CompressedJsonpath)))) := by
  cases events with
  | none => rfl
  | some d =>
    have hq : ∀ p ∈ d, p.2.query ≠ "" := by
      simpa [Option.all, List.all_eq_true] using hd
    simp only [Option.bind, eventsToCompressedData_eq, includeList_map, Option.map_map]
    rcases includeList_eq (sortPairs d) with ⟨h0, _⟩ | h1
    · rw [h0]; rfl
    · rw [h1]
      simp only [Option.map_some', Function.comp, List.map_map]
      congr 1
      refine List.map_congr_left ?_
      intro p hp
      have hpq : p.2.query ≠ "" := hq p (mem_sortPairs.mp hp)
      simp [jsonpathToCompressedJsonpath, includeStr, hpq, canonicalizeJsonpath]

/-- The encoder only depends on the canonical form: packing a selector packs
its canonicalization field for field. -/
theorem encode_eq_compressedOfCanonical {s : Selector} (h : selectorWF s = true) :
    encodeUnknownSelector s = compressedOfCanonical (canonicalizeSelector s) := by
  obtain ⟨ents, meta, events, after, limit⟩ := s
  simp only [selectorWF, Bool.and_eq_true] at h
  obtain ⟨⟨⟨he, hm⟩, hd⟩, _⟩ := h
  by_cases hf : isFilterSelector ⟨ents, meta, events, after, limit⟩ = true
  · simp only [encodeUnknownSelector, hf, if_true]
    simp only [encodeFilterSelector, compressedOfCanonical, canonicalizeSelector]
    rw [encode_m_field meta hm, encode_d_field events hd]
  · simp only [encodeUnknownSelector, hf, if_false]
    simp only [isFilterSelector, Bool.or_eq_true, Option.isSome_iff_exists,
      not_or, not_exists] at hf
    obtain ⟨⟨hfe, hfm⟩, hfd⟩ := hf
    have hents : ents = none := by cases ents with
      | none => rfl
      | some e => exact absurd rfl (hfe e)
    have hmeta : meta = none := by cases meta with
      | none => rfl
      | some f => exact absurd rfl (hfm f)
    have hevents : events = none := by cases events with
      | none => rfl
      | some d => exact absurd rfl (hfd d)
    subst hents hmeta hevents
    rfl

theorem eq_none_of_isSome_false {o : Option α} (h : o.isSome = false) : o = none := by
  cases o with
  | none => rfl
  | some x => exact absurd h (by simp)

theorem verifyLimit_includeLimit (limit : Option Int) :
    verifyLimit (limit.bind includeLimit) = true := by
  cases limit with
  | none => rfl
  | some n =>
    by_cases hn : 0 < n <;> simp [includeLimit, Option.bind, verifyLimit, hn]

theorem metaField_back (mo : Option JsonpathFilter) :
    ((mo.map (fun f => (⟨some f.query, f.vars⟩ : CompressedJsonpath))).map
      compressedJsonpathToJsonpath) = mo := by
  cases mo with
  | none => rfl
  | some f => simp [compressedJsonpathToJsonpath]

theorem dataField_back (dto : Option (List (String × JsonpathFilter))) :
    ((dto.map (fun d => d.map
        (fun p => (p.1, (⟨some p.2.query, p.2.vars⟩ : CompressedJsonpath))))).map
      compressedDataToEvents) = dto := by
  cases dto with
  | none => rfl
  | some d =>
    simp only [Option.map_some', Option.some.injEq, compressedDataToEvents,
      List.map_map]
    have : ∀ p ∈ d, (fun p => (p.1, compressedJsonpathToJsonpath p.2))
        ((fun p => (p.1, (⟨some p.2.query, p.2.vars⟩ : CompressedJsonpath))) p) = p := by
      intro p _
      simp [compressedJsonpathToJsonpath]
    calc (d.map fun p => (p.1, compressedJsonpathToJsonpath
            (⟨some p.2.query, p.2.vars⟩ : CompressedJsonpath)))
        = d.map id := List.map_congr_left (fun p hp => this p hp)
      _ = d := List.map_id d

theorem afterField_back {ao : Option EventID} (ha : ao.all eventIdWF = true) :
    (ao.map toEventIdBytes).map fromEventIdBytes = ao := by
  cases ao with
  | none => rfl
  | some a =>
    have := fromEventIdBytes_toEventIdBytes (a := a) (by simpa [Option.all] using ha)
    simp [this]

/-- Decoding the compressed record of a canonical, well-formed selector
recovers it. -/
theorem decode_compressedOfCanonical_eq {c : Selector}
    (hE : ∀ e, c.entities = some e →
      e.all (fun p => verifyNonEmptyStringArray p.2) = true)
    (hL : verifyLimit c.limit = true)
    (hA : c.after.all eventIdWF = true) :
    decodeSelector (compressedOfCanonical c) = .ok c := by
  obtain ⟨cE, cM, cD, cA, cL⟩ := c
  dsimp only at hE hL hA
  by_cases hb : (cE.isSome || (cM.map
      (fun f => (⟨some f.query, f.vars⟩ : CompressedJsonpath))).isSome
      || (cD.map (fun d => d.map
        (fun p => (p.1, (⟨some p.2.query, p.2.vars⟩ : CompressedJsonpath))))).isSome) = true
  · simp only [decodeSelector, compressedOfCanonical, hb, if_true]
    have hver : verifyCompressedFilter (compressedOfCanonical ⟨cE, cM, cD, cA, cL⟩) = true := by
      simp only [verifyCompressedFilter, compressedOfCanonical, Bool.and_eq_true]
      refine ⟨⟨⟨?_, ?_⟩, ?_⟩, hL⟩
      · cases hce : cE with
        | none => rfl
        | some e => exact hE e (by simpa using hce)
      · cases cM with
        | none => rfl
        | some f => rfl
      · cases cD with
        | none => rfl
        | some d =>
          refine List.all_eq_true.mpr ?_
          intro p hp
          obtain ⟨q, _, rfl⟩ := List.mem_map.mp hp
          rfl
    simp only [compressedFilterToSelector, compressedOfCanonical] at hver ⊢
    simp only [hver, if_true, Except.ok.injEq]
    simp only [metaField_back, dataField_back, afterField_back hA]
  · simp only [Bool.or_eq_true, not_or, Bool.not_eq_true] at hb
    obtain ⟨⟨hbe, hbm⟩, hbd⟩ := hb
    have hE0 : cE = none := eq_none_of_isSome_false hbe
    have hM0 : cM = none := Option.map_eq_none'.mp (eq_none_of_isSome_false hbm)
    have hD0 : cD = none := Option.map_eq_none'.mp (eq_none_of_isSome_false hbd)
    subst hE0 hM0 hD0
    simp only [decodeSelector, compressedOfCanonical, Option.map_none', Option.isSome_none,
      Bool.or_self, Bool.false_or, if_false]
    simp only [compressedSelectorToSelector, verifyCompressedSelector, hL, if_true,
      Except.ok.injEq]
    simp [afterField_back hA]

theorem canonical_entities_verify {s : Selector} (h : selectorWF s = true) :
    ∀ e, (canonicalizeSelector s).entities = some e →
      e.all (fun p => verifyNonEmptyStringArray p.2) = true := by
  intro e he
  obtain ⟨ents, meta, events, after, limit⟩ := s
  simp only [selectorWF, Bool.and_eq_true] at h
  obtain ⟨⟨⟨he0, _⟩, _⟩, _⟩ := h
  simp only [canonicalizeSelector] at he
  cases ents with
  | none => exact absurd he (by simp [Option.bind])
  | some e0 =>
    simp only [Option.some_bind] at he
    rcases includeList_eq (sortPairs e0) with ⟨h0, _⟩ | h1
    · rw [h0] at he
      exact absurd he (by simp)
    · rw [h1] at he
      obtain rfl := (Option.some.injEq _ _).mp he
      have hall : ∀ p ∈ e0, verifyNonEmptyStringArray p.2 = true := by
        simp only [Option.all, List.all_eq_true] at he0
        intro p hp
        exact he0 p hp
      refine List.all_eq_true.mpr ?_
      intro p hp
      exact hall p (mem_sortPairs.mp hp)

theorem canonical_limit_verify (s : Selector) :
    verifyLimit (canonicalizeSelector s).limit = true :=
  verifyLimit_includeLimit s.limit

theorem canonical_after_wf {s : Selector} (h : selectorWF s = true) :
    (canonicalizeSelector s).after.all eventIdWF = true := by
  simp only [selectorWF, Bool.and_eq_true] at h
  exact h.2

/-- Decoding the encoding of a well-formed selector yields its canonical
form. -/
theorem decode_encode_eq {s : Selector} (h : selectorWF s = true) :
    decodeSelector (encodeUnknownSelector s) = .ok (canonicalizeSelector s) := by
  rw [encode_eq_compressedOfCanonical h]
  exact decode_compressedOfCanonical_eq (canonical_entities_verify h)
    (canonical_limit_verify s) (canonical_after_wf h)

/-- C1: for every well-formed selector (plain or filter), decoding the encoded
URI token returns the canonical form of the selector — keys of `entities`,
`meta.vars` and `events` sorted lexicographically (recursively), empty
containers and zero/absent limits dropped — and two selectors with the same
canonical form (in particular, ones differing only in the ordering of those
keys) encode to the identical token. -/
theorem C1_selector_token_roundtrip (s s' : Selector)
    (h : selectorWF s = true) (h' : selectorWF s' = true) :
    decodeSelector (encodeUnknownSelector s) = .ok (canonicalizeSelector s) ∧
    (canonicalizeSelector s = canonicalizeSelector s' →
      encodeUnknownSelector s = encodeUnknownSelector s') := by
  refine ⟨decode_encode_eq h, fun hc => ?_⟩
  rw [encode_eq_compressedOfCanonical h, encode_eq_compressedOfCanonical h', hc]

/-- A concrete filter selector, with entity, var and event keys deliberately
out of order. -/
def sampleSelector : Selector :=
  { entities := some [("b", ["k2"]), ("a", ["k1"])]
    meta := some ⟨"$.m", some [("y", .num 1), ("x", .null)]⟩
    events := some [("w", ⟨"$", none⟩), ("v", ⟨"$.d", none⟩)]
    after := some ⟨3, 7, "0000abcd"⟩
    limit := some 5 }

/-- `sampleSelector` with every mapping key-reordered. -/
def sampleSelectorReordered : Selector :=
  { entities := some [("a", ["k1"]), ("b", ["k2"])]
    meta := some ⟨"$.m", some [("x", .null), ("y", .num 1)]⟩
    events := some [("v", ⟨"$.d", none⟩), ("w", ⟨"$", none⟩)]
    after := some ⟨3, 7, "0000abcd"⟩
    limit := some 5 }

theorem C1_selector_token_roundtrip_witness :
    selectorWF sampleSelector = true ∧
    selectorWF sampleSelectorReordered = true ∧
    (decodeSelector (encodeUnknownSelector sampleSelector)
        = .ok (canonicalizeSelector sampleSelector) ∧
      (canonicalizeSelector sampleSelector = canonicalizeSelector sampleSelectorReordered →
        encodeUnknownSelector sampleSelector = encodeUnknownSelector sampleSelectorReordered)) :=
  ⟨by decide, by decide,
    C1_selector_token_roundtrip sampleSelector sampleSelectorReordered
      (by decide) (by decide)⟩

/-! ### db/selector-sql.ts: SQL generation for filter predicates -/

/-- The single-quote character (string literals below avoid a raw quote). -/
def sqChar : Char := Char.ofNat 39

/-- A string holding one single quote. -/
def sq : String := String.singleton sqChar

/-- `escapeSingleQuote`: `str.replaceAll("'", "''")`. -/
def escapeSingleQuote (s : String) : String :=
  String.mk (s.toList.flatMap (fun c => if c = sqChar then [sqChar, sqChar] else [c]))

/-- One character of `JSON.stringify` string output (ASCII control characters
other than the named escapes would emit `\u00XX`; no modelled input contains
them). -/
def jsonEscapeChar (c : Char) : String :=
  if c = Char.ofNat 34 then "\\\""
  else if c = Char.ofNat 92 then "\\\\"
  else if c = Char.ofNat 10 then "\\n"
  else if c = Char.ofNat 13 then "\\r"
  else if c = Char.ofNat 9 then "\\t"
  else if c = Char.ofNat 8 then "\\b"
  else if c = Char.ofNat 12 then "\\f"
  else String.singleton c

/-- `JSON.stringify` of a string. -/
def jsonStringifyString (s : String) : String :=
  "\"" ++ String.join (s.toList.map jsonEscapeChar) ++ "\""

mutual

/-- `JSON.stringify` of a JSON value (object keys in insertion order). -/
def jsonStringify : JsonVal → String
  | .null => "null"
  | .bool true => "true"
  | .bool false => "false"
  | .num n => toString n
  | .str s => jsonStringifyString s
  | .arr xs => "[" ++ String.intercalate "," (jsonStringifyList xs) ++ "]"
  | .obj fs => "\x7b" ++ String.intercalate "," (jsonStringifyFields fs) ++ "\x7d"

def jsonStringifyList : List JsonVal → List String
  | [] => []
  | x :: xs => jsonStringify x :: jsonStringifyList xs

def jsonStringifyFields : List (String × JsonVal) → List String
  | [] => []
  | f :: fs => (jsonStringifyString f.1 ++ ":" ++ jsonStringify f.2) :: jsonStringifyFields fs

end

/-- `toJsonpathString` of db/selector-sql.ts. -/
def toJsonpathString (s : String) : String := escapeSingleQuote (jsonStringifyString s)

/-- `toPostgresString` of db/selector-sql.ts. -/
def toPostgresString (s : String) : String := sq ++ escapeSingleQuote s ++ sq

/-- `toPostgresJson` of db/selector-sql.ts. -/
def toPostgresJson (v : Vars) : String := toPostgresString (jsonStringify (.obj v))

/-- `jsonpathToSql` of db/selector-sql.ts.  `vars && toPostgresJson(vars)` is
truthy exactly when `vars` is present (the JSON text is never empty). -/
def jsonpathToSql (field : String) (jsonpath : JsonpathFilter) : String :=
  match jsonpath.vars with
  | some v =>
    "jsonb_path_exists(" ++ field ++ ", " ++ toPostgresString jsonpath.query ++ ", "
      ++ toPostgresJson v ++ ")"
  | none => field ++ " @? " ++ toPostgresString jsonpath.query

/-- `generateEntitiesQuery` of db/selector-sql.ts. -/
def generateEntitiesQuery (entities : List (String × List String)) : String :=
  let entityQueries := entities.map (fun p =>
    "entities @? " ++ sq ++ "$." ++ toJsonpathString p.1 ++ " ? ("
      ++ String.intercalate " || " (p.2.map (fun k => "@==" ++ toJsonpathString k))
      ++ ")" ++ sq)
  "(" ++ String.intercalate "\nOR " entityQueries ++ ")"

/-- `toArrayElement` of db/selector-sql.ts. -/
def toArrayElement (s : String) : String :=
  let s := String.mk (s.toList.flatMap (fun c =>
    if c = Char.ofNat 92 then [Char.ofNat 92, Char.ofNat 92] else [c]))
  let s := String.mk (s.toList.flatMap (fun c =>
    if c = Char.ofNat 34 then [Char.ofNat 92, Char.ofNat 34] else [c]))
  "\"" ++ escapeSingleQuote s ++ "\""

/-- `stringArrayToPostgresArray` of db/selector-sql.ts. -/
def stringArrayToPostgresArray (strings : List String) : String :=
  sq ++ "\x7b" ++ String.intercalate "," (strings.map toArrayElement) ++ "\x7d" ++ sq

/-- `singleOrAny` of db/selector-sql.ts; the empty case throws in the source
and is unreachable behind the caller's non-emptiness guard. -/
def singleOrAny (column : String) (values : List String) : String :=
  match values with
  | [] => ""
  | [v] => column ++ " = " ++ toPostgresString v
  | _ => column ++ " = ANY(" ++ stringArrayToPostgresArray values ++ ")"

/-- `generateEventsQuery` of db/selector-sql.ts: per-event predicates in key
order, with all plain `$` events grouped into one name test at the end. -/
def generateEventsQuery (dataFilter : List (String × JsonpathFilter)) : String :=
  let queries := (dataFilter.filter (fun p => p.2.query != "$")).map (fun p =>
    "(event = " ++ toPostgresString p.1 ++ " AND " ++ jsonpathToSql "data" p.2 ++ ")")
  let justEvents := (dataFilter.filter (fun p => p.2.query == "$")).map Prod.fst
  let queries :=
    if justEvents.isEmpty then queries else queries ++ [singleOrAny "event" justEvents]
  String.intercalate "\nOR " queries

/-- `filterSelectorToSql` of db/selector-sql.ts (clauses joined with AND; a
present-but-empty `entities`/`events` record is skipped by the `isEmpty`
guards; `meta`, when present, always has its `query` key and is included). -/
def filterSelectorToSql (s : Selector) : String :=
  let queries : List String :=
    (match s.entities with
     | some e => if e.isEmpty then [] else [generateEntitiesQuery e]
     | none => []) ++
    (match s.meta with
     | some f => [jsonpathToSql "meta" f]
     | none => []) ++
    (match s.events with
     | some d => if d.isEmpty then [] else [generateEventsQuery d]
     | none => [])
  "(" ++ String.intercalate "\nAND " queries ++ ")"

/-- `unknownSelectorToSql` of db/selector-sql.ts: the empty string for a
plain selector. -/
def unknownSelectorToSql (s : Selector) : String :=
  if isFilterSelector s then filterSelectorToSql s else ""

/-- The predicate string `latestEventId` builds and sends to
`evently.fetch_event_id` (event-source/postgres-selector.ts, `let query =
unknownSelectorToSql(selector)`). -/
def latestEventIdQuery (s : Selector) : String := unknownSelectorToSql s

/-- The predicate literal `allEvents` passes to `executeSelector`
(event-source/postgres-selector.ts). -/
def allEventsQuery : String := "true"

/-- The predicate literal `appendFact` passes to `appendEvent`
(event-store/postgres-store.ts). -/
def appendFactQuery : String := "false"

/-- C2 counterexample: for the empty plain selector, the predicate that
`latestEventId` builds via `unknownSelectorToSql` is the empty string, not
the literal `"true"` the claim asserts for every predicate-building
operation. -/
theorem C2_plain_predicate_counterexample :
    isPlainSelector {} = true ∧ latestEventIdQuery {} ≠ "true" := by
  constructor
  · rfl
  · intro h
    exact absurd h (by decide)

/-- C2 (amended): a plain selector yields the SQL literal `true` only as the
hard-coded predicate of the event-source `allEvents` path;
`unknownSelectorToSql` — the predicate builder used by `latestEventId` (ETags)
and `appendWithSelector` — yields the empty string for a plain selector. -/
theorem C2_plain_selector_predicates (s : Selector) (h : isPlainSelector s = true) :
    unknownSelectorToSql s = "" ∧ latestEventIdQuery s = ""
      ∧ allEventsQuery = "true" := by
  have hf : isFilterSelector s = false := by
    simpa [isPlainSelector] using h
  refine ⟨?_, ?_, rfl⟩ <;> simp [unknownSelectorToSql, latestEventIdQuery, hf]

theorem C2_plain_selector_predicates_witness :
    isPlainSelector {} = true ∧
    (unknownSelectorToSql {} = "" ∧ latestEventIdQuery {} = ""
      ∧ allEventsQuery = "true") :=
  ⟨by decide, C2_plain_selector_predicates {} (by decide)⟩

/-! ### notify/selector-matcher.ts: the in-process matcher -/

/-- A `PersistedEvent` as produced by `eventRowToPersistedEvent`.  The
ISO-8601 text of the timestamp is produced by js-joda from the microsecond
instant; the model carries the microseconds. -/
structure PersistedEvent where
  eventId : String
  timestampMicros : Nat
  event : String
  entities : List (String × List String)
  meta : JsonVal
  data : JsonVal
deriving Repr

/-- JavaScript object property lookup on an association list. -/
def lookupKey (l : List (String × α)) (k : String) : Option α :=
  (l.find? (fun p => p.1 == k)).map Prod.snd

/-- The `sql-jsonpath-js` engine, abstracted: `jp query vars input` models
`sjp.compile(query).exists(input, vars && \x7bvariables: vars\x7d)`. -/
abbrev JPOracle := String → Option Vars → JsonVal → Bool

/-- `createAllMatcher` of selector-matcher.ts. -/
def createAllMatcher : PersistedEvent → Bool := fun _ => true

/-- `createJsonpathMatcher` of selector-matcher.ts: a query of exactly `$`
short-circuits to always-true without compiling the engine matcher. -/
def createJsonpathMatcher (jp : JPOracle) (f : JsonpathFilter) : JsonVal → Bool :=
  if f.query = "$" then fun _ => true
  else fun input => jp f.query f.vars input

/-- `createEntitiesMatcher` of selector-matcher.ts: some (name, key) of the
event's entity map also occurs in the search mapping. -/
def createEntitiesMatcher (searchEntities : List (String × List String)) :
    PersistedEvent → Bool := fun e =>
  e.entities.any (fun p =>
    match lookupKey searchEntities p.1 with
    | some searchKeys => p.2.any (fun k => searchKeys.contains k)
    | none => false)

/-- `createMetaMatcher` of selector-matcher.ts. -/
def createMetaMatcher (jp : JPOracle) (f : JsonpathFilter) : PersistedEvent → Bool :=
  fun e => createJsonpathMatcher jp f e.meta

/-- `createDataMatcher` of selector-matcher.ts: `matchers[event]?.(data) ?? false`. -/
def createDataMatcher (jp : JPOracle) (dataFilter : List (String × JsonpathFilter)) :
    PersistedEvent → Bool := fun e =>
  match lookupKey dataFilter e.event with
  | some f => createJsonpathMatcher jp f e.data
  | none => false

/-- `createFilterMatcher` of selector-matcher.ts: the pushed matchers are
tried in order and the first hit wins, i.e. the disjunction of the present
clauses. -/
def createFilterMatcher (jp : JPOracle) (s : Selector) : PersistedEvent → Bool := fun e =>
  (match s.entities with
   | some ents => createEntitiesMatcher ents e
   | none => false) ||
  (match s.meta with
   | some f => createMetaMatcher jp f e
   | none => false) ||
  (match s.events with
   | some d => createDataMatcher jp d e
   | none => false)

/-- `createMatcher` of selector-matcher.ts. -/
def createMatcher (jp : JPOracle) (s : Selector) : PersistedEvent → Bool :=
  if isFilterSelector s then createFilterMatcher jp s else createAllMatcher

/-- The semantics the compiled per-filter JSONPath matcher implements. -/
def jpHolds (jp : JPOracle) (f : JsonpathFilter) (input : JsonVal) : Prop :=
  f.query = "$" ∨ jp f.query f.vars input = true

/-- The entities clause as the specification words it: the event and the
selector share an (entity-name, key) pair. -/
def entitiesClauseMatches (s : Selector) (e : PersistedEvent) : Prop :=
  ∃ ents, s.entities = some ents ∧
    ∃ p ∈ e.entities, ∃ sk, lookupKey ents p.1 = some sk ∧ ∃ k ∈ p.2, k ∈ sk

/-- The meta clause: present, and its JSONPath holds on the event's meta. -/
def metaClauseMatches (jp : JPOracle) (s : Selector) (e : PersistedEvent) : Prop :=
  ∃ f, s.meta = some f ∧ jpHolds jp f e.meta

/-- The events clause: the event name is mapped and its JSONPath holds on the
event's data. -/
def eventsClauseMatches (jp : JPOracle) (s : Selector) (e : PersistedEvent) : Prop :=
  ∃ d, s.events = some d ∧ ∃ f, lookupKey d e.event = some f ∧ jpHolds jp f e.data

theorem createJsonpathMatcher_eq_true {jp : JPOracle} {f : JsonpathFilter}
    {input : JsonVal} :
    createJsonpathMatcher jp f input = true ↔ jpHolds jp f input := by
  unfold createJsonpathMatcher jpHolds
  by_cases hq : f.query = "$" <;> simp [hq]

theorem createEntitiesMatcher_eq_true {ents : List (String × List String)}
    {e : PersistedEvent} :
    createEntitiesMatcher ents e = true ↔
      ∃ p ∈ e.entities, ∃ sk, lookupKey ents p.1 = some sk ∧ ∃ k ∈ p.2, k ∈ sk := by
  unfold createEntitiesMatcher
  rw [List.any_eq_true]
  refine exists_congr (fun p => and_congr_right (fun _ => ?_))
  cases hlk : lookupKey ents p.1 with
  | none => simp
  | some sk => simp [List.any_eq_true]

theorem createDataMatcher_eq_true {jp : JPOracle}
    {d : List (String × JsonpathFilter)} {e : PersistedEvent} :
    createDataMatcher jp d e = true ↔
      ∃ f, lookupKey d e.event = some f ∧ jpHolds jp f e.data := by
  unfold createDataMatcher
  cases hlk : lookupKey d e.event with
  | none => simp
  | some f => simp [createJsonpathMatcher_eq_true]

/-- C6: the compiled matcher accepts an event exactly when the selector is
plain (always matches) or at least one specified clause matches — a shared
(entity-name, key) pair, the meta JSONPath on meta, or the event name mapped
with its JSONPath holding on data; and a JSONPath of exactly `$` is
always-true for every oracle, i.e. without consulting the engine. -/
theorem C6_matcher_semantics (jp : JPOracle) (s : Selector) (e : PersistedEvent) :
    (createMatcher jp s e = true ↔
      (isFilterSelector s = false ∨ entitiesClauseMatches s e ∨
        metaClauseMatches jp s e ∨ eventsClauseMatches jp s e)) ∧
    (∀ (jp' : JPOracle) (vars : Option Vars) (input : JsonVal),
      createJsonpathMatcher jp' ⟨"$", vars⟩ input = true) := by
  refine ⟨?_, fun jp' vars input => by simp [createJsonpathMatcher]⟩
  unfold createMatcher
  by_cases hf : isFilterSelector s = true
  · rw [if_pos hf]
    have hf' : (isFilterSelector s = false) = False := by simp [hf]
    unfold createFilterMatcher
    simp only [Bool.or_eq_true, hf', false_or]
    constructor
    · rintro ((h1 | h2) | h3)
      · cases hse : s.entities with
        | none => rw [hse] at h1; exact absurd h1 (by simp)
        | some ents =>
          rw [hse] at h1
          exact Or.inl ⟨ents, hse, createEntitiesMatcher_eq_true.mp h1⟩
      · cases hsm : s.meta with
        | none => rw [hsm] at h2; exact absurd h2 (by simp)
        | some f =>
          rw [hsm] at h2
          exact Or.inr (Or.inl ⟨f, hsm, createJsonpathMatcher_eq_true.mp h2⟩)
      · cases hsd : s.events with
        | none => rw [hsd] at h3; exact absurd h3 (by simp)
        | some d =>
          rw [hsd] at h3
          exact Or.inr (Or.inr ⟨d, hsd, createDataMatcher_eq_true.mp h3⟩)
    · rintro (⟨ents, hse, hm⟩ | ⟨f, hsm, hm⟩ | ⟨d, hsd, hm⟩)
      · exact Or.inl (Or.inl (by rw [hse]; exact createEntitiesMatcher_eq_true.mpr hm))
      · exact Or.inl (Or.inr (by rw [hsm]; exact createJsonpathMatcher_eq_true.mpr hm))
      · exact Or.inr (by rw [hsd]; exact createDataMatcher_eq_true.mpr hm)
  · have hf0 : isFilterSelector s = false := by
      cases hv : isFilterSelector s
      · rfl
      · exact absurd hv hf
    rw [if_neg hf]
    simp [createAllMatcher, hf0]

/-- A concrete oracle, selector and event for the matcher witness. -/
def sampleOracle : JPOracle := fun q _ _ => q == "$.total"

def sampleMatchSelector : Selector :=
  { entities := some [("order", ["o-1", "o-2"])] }

def sampleEvent : PersistedEvent :=
  { eventId := "00000000000000030000000700001234"
    timestampMicros := 3
    event := "order-placed"
    entities := [("order", ["o-1"])]
    meta := .null
    data := .obj [("total", .num 42)] }

theorem C6_matcher_semantics_witness :
    (createMatcher sampleOracle sampleMatchSelector sampleEvent = true ↔
      (isFilterSelector sampleMatchSelector = false ∨
        entitiesClauseMatches sampleMatchSelector sampleEvent ∨
        metaClauseMatches sampleOracle sampleMatchSelector sampleEvent ∨
        eventsClauseMatches sampleOracle sampleMatchSelector sampleEvent)) ∧
    (∀ (jp' : JPOracle) (vars : Option Vars) (input : JsonVal),
      createJsonpathMatcher jp' ⟨"$", vars⟩ input = true) :=
  C6_matcher_semantics sampleOracle sampleMatchSelector sampleEvent

/-! ### registry (postgres-registry.ts): `reduceAllEvents` and its fold -/

/-- The two marker event names of the registry (EVENT_REGISTERED и
EVENT_UNREGISTERED); only their identity matters to the fold. -/
inductive RegAction where
  | registered
  | unregistered
deriving Repr, DecidableEq

/-- One marker event as it arrives in the filtered stream: its name
(registered/unregistered) and the `{event, entities}` carried in `data`. -/
structure RegMarker where
  action : RegAction
  event : String
  entities : List String
deriving Repr, DecidableEq

/-- `EventType` of registry/index.ts. -/
structure EventType where
  event : String
  entities : List String
deriving Repr, DecidableEq

/-- JS `Map.prototype.set` on an insertion-ordered map: an existing key keeps
its position and takes the new value, a new key is appended. -/
def mapSet : List (String × α) → String → α → List (String × α)
  | [], k, v => [(k, v)]
  | p :: rest, k, v => if p.1 = k then (k, v) :: rest else p :: mapSet rest k v

/-- JS `Map.prototype.delete`. -/
def mapDelete (m : List (String × α)) (k : String) : List (String × α) :=
  m.filter (fun p => p.1 != k)

/-- The `for await` loop body of `reduceAllEvents`: registered markers set
`event → entities`, unregistered markers delete `event`. -/
def reduceGo : List RegMarker → List (String × List String) → List (String × List String)
  | [], m => m
  | mk :: H, m =>
    match mk.action with
    | .registered => reduceGo H (mapSet m mk.event mk.entities)
    | .unregistered => reduceGo H (mapDelete m mk.event)

/-- `reduceAllEvents` of postgres-registry.ts applied to the marker stream
`H`: fold the markers over an empty map, then list the entries in map order. -/
def reduceAllEvents (H : List RegMarker) : List EventType :=
  (reduceGo H []).map (fun p => ⟨p.1, p.2⟩)

/-- `getEvent` of postgres-registry.ts: `allEvents.find(e => e.event === event)`. -/
def getEvent (H : List RegMarker) (event : String) : Option EventType :=
  (reduceAllEvents H).find? (fun e => e.event == event)

/-- The last marker for an event name in a history (specification side). -/
def lastMarkerFor : List RegMarker → String → Option RegMarker
  | [], _ => none
  | mk :: H, ev =>
    match lastMarkerFor H ev with
    | some mk2 => some mk2
    | none => if mk.event = ev then some mk else none

theorem lastMarkerFor_event {H : List RegMarker} {ev : String} {mk : RegMarker}
    (h : lastMarkerFor H ev = some mk) : mk.event = ev := by
  induction H with
  | nil => exact absurd h (by simp [lastMarkerFor])
  | cons mk0 H ih =>
    simp only [lastMarkerFor] at h
    cases hl : lastMarkerFor H ev with
    | some mk2 =>
      rw [hl] at h
      exact ih (hl.trans h)
    | none =>
      rw [hl] at h
      by_cases he : mk0.event = ev
      · rw [if_pos he] at h
        obtain rfl := (Option.some.injEq _ _).mp h
        exact he
      · rw [if_neg he] at h
        exact absurd h (by simp)

theorem mem_mapDelete {m : List (String × List String)} {k ev : String}
    {ents : List String} :
    (ev, ents) ∈ mapDelete m k ↔ ev ≠ k ∧ (ev, ents) ∈ m := by
  simp only [mapDelete, List.mem_filter, bne_iff_ne, ne_eq]
  tauto

theorem mapSet_keys {m : List (String × List String)} (k : String) (v : List String) :
    (mapSet m k v).map Prod.fst =
      if k ∈ m.map Prod.fst then m.map Prod.fst else m.map Prod.fst ++ [k] := by
  induction m with
  | nil => simp [mapSet]
  | cons p rest ih =>
    by_cases hp : p.1 = k
    · simp [mapSet, hp]
    · have : ¬ k = p.1 := fun he => hp he.symm
      simp only [mapSet, hp, if_false, List.map_cons, List.mem_cons, this, false_or, ih]
      by_cases hk : k ∈ rest.map Prod.fst <;> simp [hk]

theorem mapSet_keys_nodup {m : List (String × List String)}
    (hm : (m.map Prod.fst).Nodup) (k : String) (v : List String) :
    ((mapSet m k v).map Prod.fst).Nodup := by
  rw [mapSet_keys]
  by_cases hk : k ∈ m.map Prod.fst
  · simpa [hk]
  · have hdisj : (m.map Prod.fst).Disjoint [k] := by
      intro a ha hak
      have haeq : a = k := by simpa using hak
      exact hk (haeq ▸ ha)
    simpa [hk] using List.Nodup.append hm (by simp) hdisj

theorem mapDelete_keys_nodup {m : List (String × List String)}
    (hm : (m.map Prod.fst).Nodup) (k : String) :
    ((mapDelete m k).map Prod.fst).Nodup :=
  List.Nodup.sublist (List.Sublist.map Prod.fst (List.filter_sublist m)) hm

theorem mem_mapSet {m : List (String × List String)}
    (hm : (m.map Prod.fst).Nodup) {k ev : String} {v ents : List String} :
    (ev, ents) ∈ mapSet m k v ↔
      ((ev = k ∧ ents = v) ∨ (ev ≠ k ∧ (ev, ents) ∈ m)) := by
  induction m with
  | nil => simp [mapSet, Prod.ext_iff]
  | cons p rest ih =>
    simp only [List.map_cons, List.nodup_cons] at hm
    obtain ⟨hp1, hrest⟩ := hm
    by_cases hp : p.1 = k
    · have hstep : mapSet (p :: rest) k v = (k, v) :: rest := by
        simp [mapSet, hp]
      have hknotin : (ev, ents) ∈ rest → ¬ ev = k := by
        intro hr he
        refine hp1 ?_
        rw [hp, ← he]
        exact List.mem_map.mpr ⟨(ev, ents), hr, rfl⟩
      rw [hstep]
      simp only [List.mem_cons, ne_eq]
      constructor
      · rintro (he | hr)
        · exact Or.inl ⟨congrArg Prod.fst he, congrArg Prod.snd he⟩
        · exact Or.inr ⟨hknotin hr, Or.inr hr⟩
      · rintro (⟨h1, h2⟩ | ⟨hne, (he | hr)⟩)
        · exact Or.inl (by rw [h1, h2])
        · exact absurd ((congrArg Prod.fst he).trans hp) hne
        · exact Or.inr hr
    · have hstep : mapSet (p :: rest) k v = p :: mapSet rest k v := by
        simp [mapSet, hp]
      rw [hstep]
      simp only [List.mem_cons, ih hrest, ne_eq]
      constructor
      · rintro (he | (⟨h1, h2⟩ | ⟨hne, hr⟩))
        · have hne : ¬ ev = k := fun he2 => hp ((congrArg Prod.fst he).symm.trans he2)
          exact Or.inr ⟨hne, Or.inl he⟩
        · exact Or.inl ⟨h1, h2⟩
        · exact Or.inr ⟨hne, Or.inr hr⟩
      · rintro (⟨h1, h2⟩ | ⟨hne, (he | hr)⟩)
        · exact Or.inr (Or.inl ⟨h1, h2⟩)
        · exact Or.inl he
        · exact Or.inr (Or.inr ⟨hne, hr⟩)

theorem reduceGo_mem (H : List RegMarker) (m : List (String × List String))
    (hm : (m.map Prod.fst).Nodup) (ev : String) (ents : List String) :
    ((ev, ents) ∈ reduceGo H m ↔
      (match lastMarkerFor H ev with
       | some mk => mk.action = .registered ∧ mk.entities = ents
       | none => (ev, ents) ∈ m)) := by
  induction H generalizing m with
  | nil => simp [reduceGo, lastMarkerFor]
  | cons mk0 H ih =>
    simp only [lastMarkerFor]
    cases hl : lastMarkerFor H ev with
    | some mk2 =>
      cases ha : mk0.action with
      | registered =>
        simp only [reduceGo, ha]
        rw [ih _ (mapSet_keys_nodup hm mk0.event mk0.entities), hl]
      | unregistered =>
        simp only [reduceGo, ha]
        rw [ih _ (mapDelete_keys_nodup hm mk0.event), hl]
    | none =>
      cases ha : mk0.action with
      | registered =>
        simp only [reduceGo, ha]
        rw [ih _ (mapSet_keys_nodup hm mk0.event mk0.entities), hl]
        by_cases he : mk0.event = ev
        · rw [if_pos he]
          subst he
          rw [mem_mapSet hm]
          simp [ha, eq_comm]
        · rw [if_neg he]
          rw [mem_mapSet hm]
          have : ¬ ev = mk0.event := fun h2 => he h2.symm
          simp [this]
      | unregistered =>
        simp only [reduceGo, ha]
        rw [ih _ (mapDelete_keys_nodup hm mk0.event), hl]
        by_cases he : mk0.event = ev
        · rw [if_pos he]
          subst he
          rw [mem_mapDelete]
          simp [ha]
        · rw [if_neg he]
          rw [mem_mapDelete]
          have : ev ≠ mk0.event := fun h2 => he h2.symm
          simp [this]

theorem reduceGo_keys_nodup (H : List RegMarker) (m : List (String × List String))
    (hm : (m.map Prod.fst).Nodup) : ((reduceGo H m).map Prod.fst).Nodup := by
  induction H generalizing m with
  | nil => exact hm
  | cons mk0 H ih =>
    cases ha : mk0.action with
    | registered =>
      simp only [reduceGo, ha]
      exact ih _ (mapSet_keys_nodup hm mk0.event mk0.entities)
    | unregistered =>
      simp only [reduceGo, ha]
      exact ih _ (mapDelete_keys_nodup hm mk0.event)

theorem mem_reduceAllEvents {H : List RegMarker} {ev : String} {ents : List String} :
    (⟨ev, ents⟩ : EventType) ∈ reduceAllEvents H ↔ (ev, ents) ∈ reduceGo H [] := by
  simp only [reduceAllEvents, List.mem_map]
  constructor
  · rintro ⟨p, hp, he⟩
    obtain ⟨h1, h2⟩ := EventType.mk.injEq .. ▸ he
    obtain ⟨p1, p2⟩ := p
    cases h1
    cases h2
    exact hp
  · intro hp
    exact ⟨(ev, ents), hp, rfl⟩

theorem find?_key_unique {l : List EventType} (hn : (l.map EventType.event).Nodup)
    {t : EventType} (ht : t ∈ l) : l.find? (fun e => e.event == t.event) = some t := by
  induction l with
  | nil => exact absurd ht (by simp)
  | cons a l ih =>
    simp only [List.map_cons, List.nodup_cons] at hn
    obtain ⟨ha, hl⟩ := hn
    rcases List.mem_cons.mp ht with rfl | htl
    · simp [List.find?]
    · have hne : a.event ≠ t.event := by
        intro he
        exact ha (he ▸ List.mem_map.mpr ⟨t, htl, rfl⟩)
      have : (a.event == t.event) = false := by
        simpa using hne
      simp only [List.find?, this]
      exact ih hl htl

/-- C4: the registry read operations are exactly the stream-order fold of the
marker history — an event type is in `reduceAllEvents H` (resp. found by
`getEvent`) with entity list `ents` iff the last marker for it in `H` is a
registration carrying `ents`. -/
theorem C4_registry_fold (H : List RegMarker) (ev : String) (ents : List String) :
    ((⟨ev, ents⟩ : EventType) ∈ reduceAllEvents H ↔
      lastMarkerFor H ev = some ⟨.registered, ev, ents⟩) ∧
    (getEvent H ev = some ⟨ev, ents⟩ ↔
      lastMarkerFor H ev = some ⟨.registered, ev, ents⟩) := by
  have hmem : (⟨ev, ents⟩ : EventType) ∈ reduceAllEvents H ↔
      lastMarkerFor H ev = some ⟨.registered, ev, ents⟩ := by
    rw [mem_reduceAllEvents, reduceGo_mem H [] (by simp) ev ents]
    cases hl : lastMarkerFor H ev with
    | none => simp
    | some mk =>
      have hev : mk.event = ev := lastMarkerFor_event hl
      obtain ⟨mka, mke, mkents⟩ := mk
      simp only at hev
      subst hev
      cases mka <;> simp [Option.some.injEq, RegMarker.mk.injEq, eq_comm]
  refine ⟨hmem, ?_⟩
  constructor
  · intro hfind
    have hmem2 : (⟨ev, ents⟩ : EventType) ∈ reduceAllEvents H :=
      List.mem_of_find?_eq_some hfind
    exact hmem.mp hmem2
  · intro hl
    have hmem2 := hmem.mpr hl
    have hnodup : ((reduceAllEvents H).map EventType.event).Nodup := by
      have := reduceGo_keys_nodup H [] (by simp)
      simpa [reduceAllEvents, List.map_map, Function.comp] using this
    exact find?_key_unique hnodup hmem2

/-! ### event-store/postgres-store.ts: the append engine

The external stored procedures (`evently.append_event`,
`evently.find_with_append_key`) are modelled from the specification (§6.3,
§4.5); everything else is translated from postgres-store.ts. -/

/-- `AppendEvent` input per the data model:
`{event, entities, meta?, data?, idempotencyKey?}`.  `none` models an absent
(JS `undefined`) field; explicit JSON null is `some .null`. -/
structure AppendEvent where
  event : String
  entities : List (String × List String)
  meta : Option JsonVal := none
  data : Option JsonVal := none
  idempotencyKey : Option String := none
deriving Repr

/-- `AppendEventPostgres` of postgres-store.ts: the values handed to
`evently.append_event`.  The previous event id is carried as the
(timestamp, checksum) pair that `toEventIdString` packs into the UUID. -/
structure AppendEventPostgres where
  prevTimestamp : Nat
  prevChecksum : Nat
  event : String
  entities : List (String × List String)
  meta : JsonVal
  data : JsonVal
  appendKey : String
  selector : String
deriving Repr

/-- A stored ledger row, as `find_with_append_key` returns it. -/
structure StoredEvent where
  timestamp : Nat
  checksum : Nat
  event : String
  entities : List (String × List String)
  meta : JsonVal
  data : JsonVal
  appendKey : String
deriving Repr

/-- Modelled from the spec: the external ledger-db state — the stored events
plus the (timestamp, checksum) the next committed append will be assigned. -/
structure LedgerDb where
  events : List StoredEvent
  nextTimestamp : Nat
  nextChecksum : Nat
deriving Repr

/-- The two database error signals the claims depend on (§4.5): a message
starting "RACE CONDITION", and the unique violation on `_append_key_key`. -/
inductive DbErr where
  | raceCondition
  | appendKeyConflict
deriving Repr, DecidableEq

mutual

/-- lodash `isEqual` on JSON values: deep, and key-order-independent on
objects (same number of keys, and every key of the left object present in the
right one with a deeply equal value). -/
def jsonEq : JsonVal → JsonVal → Bool
  | .null, .null => true
  | .bool a, .bool b => a == b
  | .num a, .num b => a == b
  | .str a, .str b => a == b
  | .arr xs, .arr ys => jsonEqList xs ys
  | .obj fs, .obj gs => fs.length == gs.length && jsonEqFields fs gs
  | _, _ => false

def jsonEqList : List JsonVal → List JsonVal → Bool
  | [], [] => true
  | x :: xs, y :: ys => jsonEq x y && jsonEqList xs ys
  | _, _ => false

def jsonEqFields : List (String × JsonVal) → List (String × JsonVal) → Bool
  | [], _ => true
  | f :: fs, gs =>
    (match lookupKey gs f.1 with
     | some w => jsonEq f.2 w
     | none => false) && jsonEqFields fs gs

end

/-- An entities record as the JSON object it is on the wire. -/
def entitiesJson (e : List (String × List String)) : JsonVal :=
  .obj (e.map (fun p => (p.1, .arr (p.2.map .str))))

/-- lodash `isEqual` between a stored (JSON) value and an input field that
may be absent: `isEqual(x, undefined)` is false for every JSON value `x`. -/
def isEqualJs (stored : JsonVal) (input : Option JsonVal) : Bool :=
  match input with
  | some v => jsonEq stored v
  | none => false

/-- Modelled from the spec: `evently.append_event` (§6.3, §4.5): raise the
`_append_key_key` unique violation if the append key already exists, raise
RACE CONDITION if some event after the previous position matches the
predicate — `pm` models the database evaluating the predicate bytes on a
stored event — otherwise commit with the next (timestamp, checksum) and
return the new event id.  (The `previous_id must exist` / `previous can only
be genesis` checks are not modelled; no claim depends on them.) -/
def append_event (pm : String → StoredEvent → Bool) (ledgerId : String)
    (db : LedgerDb) (v : AppendEventPostgres) : Except DbErr (String × LedgerDb) :=
  if db.events.any (fun s => s.appendKey == v.appendKey) then
    .error .appendKeyConflict
  else if db.events.any (fun s =>
      decide (v.prevTimestamp < s.timestamp) && pm v.selector s) then
    .error .raceCondition
  else
    .ok (toEventIdString db.nextTimestamp db.nextChecksum ledgerId,
      ⟨db.events ++
        [⟨db.nextTimestamp, db.nextChecksum, v.event, v.entities, v.meta, v.data,
          v.appendKey⟩],
        db.nextTimestamp + 1, db.nextChecksum + 1⟩)

/-- Modelled from the spec: `evently.find_with_append_key` (§6.3). -/
def find_with_append_key (db : LedgerDb) (key : String) : Option StoredEvent :=
  db.events.find? (fun s => s.appendKey == key)

/-- `AppendResult` of event-store/index.ts as the claims use it. -/
inductive AppendResult where
  | success (eventId : String) (idempotencyKey : String)
  | race (error : String)
  | failure (message : String)
deriving Repr

/-- `maybeIdempotent` of postgres-store.ts: look up the stored event for the
idempotency key; if it deeply equals the current input, upgrade to SUCCESS
with the stored event id; if it differs, throw 422; if absent, keep the
original result. -/
def maybeIdempotent (db : LedgerDb) (ledgerId : String) (newEvent : AppendEvent)
    (appendResult : AppendResult) : Except HttpErr AppendResult :=
  let idempotencyKey := newEvent.idempotencyKey.getD "NO_IDEMPOTENCY_KEY"
  match find_with_append_key db idempotencyKey with
  | some stored =>
    if newEvent.event == stored.event
        && jsonEq (entitiesJson stored.entities) (entitiesJson newEvent.entities)
        && isEqualJs stored.meta newEvent.meta
        && isEqualJs stored.data newEvent.data then
      .ok (.success (toEventIdString stored.timestamp stored.checksum ledgerId)
        idempotencyKey)
    else
      .error (unprocessable
        ("Event does not match the event originally appended with idempotencyKey: "
          ++ sq ++ idempotencyKey ++ sq))
  | none => .ok appendResult

/-- `tryAppendResult` of postgres-store.ts: translate the database outcome.
A row yields SUCCESS; RACE and the append-key unique violation defer to
`maybeIdempotent` when an append key is present (it always is); other errors
become a 500 with a correlation id. -/
def tryAppendResult (pm : String → StoredEvent → Bool) (ledgerId : String)
    (db : LedgerDb) (event : AppendEvent) (v : AppendEventPostgres) :
    (Except HttpErr AppendResult) × LedgerDb :=
  match append_event pm ledgerId db v with
  | .ok (eventId, db2) => (.ok (.success eventId v.appendKey), db2)
  | .error .raceCondition =>
    let raceResult := AppendResult.race
      "Race Condition! Entity has newer events. Please GET /SELECTOR for the most recent events."
    if v.appendKey != "" then (maybeIdempotent db ledgerId event raceResult, db)
    else (.ok raceResult, db)
  | .error .appendKeyConflict =>
    if v.appendKey != "" then
      (maybeIdempotent db ledgerId event (.failure
        "idempotencyKey reused for a different event. Please generate a new idempotencyKey and repeat the append request."),
        db)
    else
      (.error ⟨500,
        "Something went wrong on our side. Please contact us with the reference for investigation."⟩,
        db)

/-- `validateEvent` of postgres-store.ts: the event name must be registered
(the registry is its `EventType` list) and every entity name on the event
listed for it; otherwise 422. -/
def validateEvent (registry : List EventType) (eventIn : AppendEvent) :
    Except HttpErr Unit :=
  match registry.find? (fun t => t.event == eventIn.event) with
  | none => .error (unprocessable
      ("event " ++ sq ++ eventIn.event ++ sq
        ++ " not found in this ledger. Visit /registry/register-event to register new events."))
  | some eventDef =>
    let errors := (eventIn.entities.map Prod.fst).filter
      (fun entity => !(eventDef.entities.contains entity))
    if errors.isEmpty then .ok ()
    else .error (unprocessable "entity is not registered to be part of this event.")

/-- Outcome of one service append call: the HTTP result, the database state
afterwards, and whether `evently.append_event` was invoked. -/
structure AppendOutcome where
  result : Except HttpErr AppendResult
  db : LedgerDb
  appendEventCalled : Bool
deriving Repr

/-- `appendEvent` of postgres-store.ts: validate against the registry, build
the `append_event` values (`meta`/`data` default to JSON null, the append key
is the idempotency key or a fresh cuid `freshKey`), then run the append.
`stringToBytes` (UTF-8) is kept as the string it encodes. -/
def appendEvent (pm : String → StoredEvent → Bool) (registry : List EventType)
    (ledgerId : String) (db : LedgerDb) (event : AppendEvent) (freshKey : String)
    (selectorSql : String) (after : Option EventID) : AppendOutcome :=
  match validateEvent registry event with
  | .error e => ⟨.error e, db, false⟩
  | .ok () =>
    let appendKey := match event.idempotencyKey with
      | some k => if k = "" then freshKey else k
      | none => freshKey
    let v : AppendEventPostgres :=
      ⟨(after.map EventID.timestamp).getD 0, (after.map EventID.checksum).getD 0,
        event.event, event.entities, event.meta.getD .null, event.data.getD .null,
        appendKey, selectorSql⟩
    let r := tryAppendResult pm ledgerId db event v
    ⟨r.1, r.2, true⟩

/-- `appendFact` of postgres-store.ts: predicate literal "false". -/
def appendFact (pm : String → StoredEvent → Bool) (registry : List EventType)
    (ledgerId : String) (db : LedgerDb) (event : AppendEvent) (freshKey : String) :
    AppendOutcome :=
  appendEvent pm registry ledgerId db event freshKey "false" none

/-- `appendWithSelector` of postgres-store.ts: predicate from the selector,
`after` from the selector. -/
def appendWithSelector (pm : String → StoredEvent → Bool) (registry : List EventType)
    (ledgerId : String) (db : LedgerDb) (event : AppendEvent) (freshKey : String)
    (selector : Selector) : AppendOutcome :=
  appendEvent pm registry ledgerId db event freshKey (unknownSelectorToSql selector)
    selector.after

theorem validateEvent_error_status {registry : List EventType} {e : AppendEvent}
    {err : HttpErr} (h : validateEvent registry e = .error err) : err.status = 422 := by
  unfold validateEvent at h
  cases hf : registry.find? (fun t => t.event == e.event) with
  | none =>
    rw [hf] at h
    obtain rfl := (Except.error.injEq _ _).mp h.symm
    rfl
  | some t =>
    rw [hf] at h
    dsimp only at h
    by_cases he : ((e.entities.map Prod.fst).filter
        (fun entity => !(t.entities.contains entity))).isEmpty
    · rw [if_pos he] at h
      exact absurd h (by simp)
    · rw [if_neg he] at h
      obtain rfl := (Except.error.injEq _ _).mp h.symm
      rfl

theorem validateEvent_ok_iff {registry : List EventType} {e : AppendEvent} :
    validateEvent registry e = .ok () ↔
      ∃ t, registry.find? (fun t => t.event == e.event) = some t ∧
        ∀ name ∈ e.entities.map Prod.fst, name ∈ t.entities := by
  unfold validateEvent
  cases hf : registry.find? (fun t => t.event == e.event) with
  | none => simp
  | some t =>
    dsimp only
    by_cases he : ((e.entities.map Prod.fst).filter
        (fun entity => !(t.entities.contains entity))).isEmpty
    · rw [if_pos he]
      simp only [true_iff]
      refine ⟨t, rfl, ?_⟩
      intro name hname
      rw [List.isEmpty_iff, List.filter_eq_nil_iff] at he
      have := he name hname
      simpa using this
    · rw [if_neg he]
      constructor
      · intro h
        exact absurd h (by simp)
      · rintro ⟨t2, hf2, hall⟩
        obtain rfl := (Option.some.injEq _ _).mp hf2.symm
        refine absurd ?_ he
        rw [List.isEmpty_iff, List.filter_eq_nil_iff]
        intro a ha
        simp only [Bool.not_eq_true, Bool.not_eq_eq_eq_not, Bool.not_true]
        simpa using List.elem_eq_true_of_mem (hall a ha)

/-- C7: every append (factual or atomic) validates against the registry:
validation succeeds exactly when the event name is registered and every
entity name on the event is listed for it; a validation failure is a 422
Unprocessable error; and a SUCCESS append outcome implies the validation
succeeded. -/
theorem C7_append_validates_registry (pm : String → StoredEvent → Bool)
    (registry : List EventType) (ledgerId : String) (db : LedgerDb)
    (e : AppendEvent) (freshKey : String) (sel : Selector) :
    (validateEvent registry e = .ok () ↔
      ∃ t, registry.find? (fun t => t.event == e.event) = some t ∧
        ∀ name ∈ e.entities.map Prod.fst, name ∈ t.entities) ∧
    (∀ err, validateEvent registry e = .error err → err.status = 422) ∧
    (∀ id k, (appendFact pm registry ledgerId db e freshKey).result
        = .ok (.success id k) → validateEvent registry e = .ok ()) ∧
    (∀ id k, (appendWithSelector pm registry ledgerId db e freshKey sel).result
        = .ok (.success id k) → validateEvent registry e = .ok ()) := by
  refine ⟨validateEvent_ok_iff, fun err h => validateEvent_error_status h, ?_, ?_⟩
  · intro id k h
    cases hv : validateEvent registry e with
    | ok u =>
      cases u
      rfl
    | error err =>
      rw [appendFact, appendEvent, hv] at h
      exact absurd h (by simp)
  · intro id k h
    cases hv : validateEvent registry e with
    | ok u =>
      cases u
      rfl
    | error err =>
      rw [appendWithSelector, appendEvent, hv] at h
      exact absurd h (by simp)

/-- The predicate matcher of a database in which no predicate ever matches;
in particular the literal "false" never matches, as the spec requires. -/
def pmFalse : String → StoredEvent → Bool := fun _ _ => false

/-- A fresh ledger whose next event will be stamped (1, 1). -/
def emptyLedgerDb : LedgerDb := ⟨[], 1, 1⟩

/-- A registry with one event type `x` over entity `e`. -/
def xRegistry : List EventType := [⟨"x", ["e"]⟩]

/-- A registry where `x` is registered with no entities. -/
def xRegistryNoEntities : List EventType := [⟨"x", []⟩]

/-- An append input naming entity `e`, with no meta, data or key. -/
def xAppendInput : AppendEvent := ⟨"x", [("e", ["1"])], none, none, none⟩

/-- The 422 produced when an entity on the event is not listed. -/
def entityNotRegisteredErr : HttpErr :=
  unprocessable "entity is not registered to be part of this event."

theorem C7_append_validates_registry_witness :
    (validateEvent xRegistry xAppendInput = .ok () ↔
      ∃ t, xRegistry.find? (fun t => t.event == xAppendInput.event) = some t ∧
        ∀ name ∈ xAppendInput.entities.map Prod.fst, name ∈ t.entities) ∧
    (∀ err, validateEvent xRegistry xAppendInput = .error err → err.status = 422) ∧
    (∀ id k, (appendFact pmFalse xRegistry "0000abcd" emptyLedgerDb xAppendInput "f1").result
        = .ok (.success id k) → validateEvent xRegistry xAppendInput = .ok ()) ∧
    (∀ id k, (appendWithSelector pmFalse xRegistry "0000abcd" emptyLedgerDb xAppendInput "f1"
          {}).result
        = .ok (.success id k) → validateEvent xRegistry xAppendInput = .ok ()) :=
  C7_append_validates_registry pmFalse xRegistry "0000abcd" emptyLedgerDb
    xAppendInput "f1" {}

/-- C10: when registry validation fails, the 422 is raised before
`evently.append_event` is invoked: the outcome carries the validation error,
the database state is unchanged, and no append call was made — for the
factual and the atomic path alike. -/
theorem C10_validation_failure_leaves_ledger_unchanged
    (pm : String → StoredEvent → Bool) (registry : List EventType)
    (ledgerId : String) (db : LedgerDb) (e : AppendEvent) (freshKey : String)
    (sel : Selector) (err : HttpErr)
    (h : validateEvent registry e = .error err) :
    err.status = 422 ∧
    appendFact pm registry ledgerId db e freshKey = ⟨.error err, db, false⟩ ∧
    appendWithSelector pm registry ledgerId db e freshKey sel
      = ⟨.error err, db, false⟩ := by
  refine ⟨validateEvent_error_status h, ?_, ?_⟩
  · rw [appendFact, appendEvent, h]
  · rw [appendWithSelector, appendEvent, h]

theorem C10_validation_failure_leaves_ledger_unchanged_witness :
    validateEvent xRegistryNoEntities xAppendInput = .error entityNotRegisteredErr ∧
    (entityNotRegisteredErr.status = 422 ∧
      appendFact pmFalse xRegistryNoEntities "0000abcd" emptyLedgerDb xAppendInput "f1"
        = ⟨.error entityNotRegisteredErr, emptyLedgerDb, false⟩ ∧
      appendWithSelector pmFalse xRegistryNoEntities "0000abcd" emptyLedgerDb
          xAppendInput "f1" {}
        = ⟨.error entityNotRegisteredErr, emptyLedgerDb, false⟩) :=
  ⟨by rfl,
    C10_validation_failure_leaves_ledger_unchanged pmFalse xRegistryNoEntities
      "0000abcd" emptyLedgerDb xAppendInput "f1" {} entityNotRegisteredErr (by rfl)⟩

/-- The claim-C3 failing input: an append carrying idempotency key `K` and no
`meta` or `data` fields (end-to-end scenario 3 of the specification). -/
def metalessInput : AppendEvent := ⟨"x", [("e", ["1"])], none, none, some "K"⟩

/-- C3: evaluating the code at the failing input.  Appending `metalessInput`
twice: the first call returns SUCCESS; the second hits the append-key unique
violation, `maybeIdempotent` finds the stored event, and the comparison
`isEqual(storedMeta, meta)` — stored JSON null against the replay input's
absent field — is false, so the service throws 422 where the claim (and the
specification's §4.5.1 / scenario 3) require SUCCESS with the identical
event id. -/
theorem C3_idempotent_replay_bug :
    (appendFact pmFalse xRegistry "0000abcd" emptyLedgerDb metalessInput "fresh1").result
      = .ok (.success (toEventIdString 1 1 "0000abcd") "K") ∧
    (appendFact pmFalse xRegistry "0000abcd"
        (appendFact pmFalse xRegistry "0000abcd" emptyLedgerDb metalessInput "fresh1").db
        metalessInput "fresh2").result
      = .error (unprocessable
          ("Event does not match the event originally appended with idempotencyKey: "
            ++ sq ++ "K" ++ sq)) :=
  ⟨rfl, rfl⟩

/-- For contrast (not a claim theorem): when `meta` and `data` are present,
the idempotent replay does return SUCCESS with the identical event id, and a
different input reusing the key is rejected 422 — the behaviour the claim
describes. -/
def keyedInputWithMeta : AppendEvent :=
  ⟨"x", [("e", ["1"])], some (.obj [("m", .num 1)]), some .null, some "K"⟩

/-- The same event with its entities object keys reordered and different data. -/
def keyedInputOtherData : AppendEvent :=
  ⟨"x", [("e", ["1"])], some (.obj [("m", .num 1)]), some (.num 2), some "K"⟩

theorem idempotent_replay_with_meta_present :
    (appendFact pmFalse xRegistry "0000abcd" emptyLedgerDb keyedInputWithMeta "fresh1").result
      = .ok (.success (toEventIdString 1 1 "0000abcd") "K") ∧
    (appendFact pmFalse xRegistry "0000abcd"
        (appendFact pmFalse xRegistry "0000abcd" emptyLedgerDb keyedInputWithMeta "fresh1").db
        keyedInputWithMeta "fresh2").result
      = .ok (.success (toEventIdString 1 1 "0000abcd") "K") ∧
    (appendFact pmFalse xRegistry "0000abcd"
        (appendFact pmFalse xRegistry "0000abcd" emptyLedgerDb keyedInputWithMeta "fresh1").db
        keyedInputOtherData "fresh3").result
      = .error (unprocessable
          ("Event does not match the event originally appended with idempotencyKey: "
            ++ sq ++ "K" ++ sq)) :=
  ⟨rfl, rfl, rfl⟩

/-! ### api/selectors-endpoints.ts: `lookupToSelector` -/

/-- The POST /selectors form (`SelectorFilterLookup`): the filter fields with
`after` still in its 32-char hex string form. -/
structure SelectorFilterLookup where
  entities : Option (List (String × List String)) := none
  meta : Option JsonpathFilter := none
  events : Option (List (String × JsonpathFilter)) := none
  after : Option String := none
  limit : Option Int := none
deriving Repr

/-- `String.prototype.trimStart`. -/
def trimStart (s : String) : String := String.mk (s.toList.dropWhile Char.isWhitespace)

/-- The `STRICT` constant of selectors-endpoints.ts: the keyword plus a
space. -/
def STRICT : String := "strict "

/-- Is the character a hex digit, as `Buffer.from(_, "hex")` accepts it
(case-insensitive)? -/
def isHexDigit (c : Char) : Bool := (hexDigitVal? c).isSome

/-- The 16 bytes of a 32-char all-hex event id string, as `Buffer.from(s,
"hex")` followed by `fromEventIdBytes` reads them; only evaluated behind the
all-hex guard of `maybeFromEventIdString`, where each segment is pure hex. -/
def eventIdBytesOfHex (s : String) : EventIdBytes :=
  let cs := s.toList
  ⟨parseHexGo (cs.take 16) 0, parseHexGo ((cs.drop 16).take 8) 0,
    parseHexGo ((cs.drop 24).take 8) 0⟩

/-- `maybeFromEventIdString` of eventId-utils.ts: absent stays absent; a
non-32-char string is a 400.  For a 32-char string, `Buffer.from(s, "hex")`
stops decoding at the first pair with a non-hex character, so the buffer has
the 16 bytes `fromEventIdBytes` demands exactly when every character is a
hex digit; otherwise `fromEventIdBytes` throws its 400. -/
def maybeFromEventIdString (eventId : Option String) : Except HttpErr (Option EventID) :=
  match eventId with
  | none => .ok none
  | some s =>
    if s.length = 32 then
      if s.toList.all isHexDigit then
        .ok (some (fromEventIdBytes (eventIdBytesOfHex s)))
      else .error (badRequest ("Invalid " ++ sq ++ "eventId" ++ sq ++ " buffer value"))
    else .error (badRequest ("Invalid " ++ sq ++ "eventId" ++ sq ++ " value: " ++ s))

/-- `query.trimStart().startsWith("strict ")`, on the char-list level. -/
def queryHasStrict (q : String) : Bool :=
  List.isPrefixOf STRICT.toList (trimStart q).toList

/-- Does the meta query start (after leading whitespace) with `strict `? -/
def metaHasStrict (l : SelectorFilterLookup) : Bool :=
  match l.meta with
  | some f => queryHasStrict f.query
  | none => false

/-- The per-event strict errors, in key order. -/
def strictEventErrors (d : List (String × JsonpathFilter)) : List String :=
  (d.filter (fun p => queryHasStrict p.2.query)).map (fun p =>
    "events." ++ p.1 ++ ".query " ++ sq ++ "strict" ++ sq
      ++ " keyword unsupported in Evently" ++ sq ++ "s SQL JSONPath data filter")

/-- Does some event query start (after leading whitespace) with `strict `? -/
def eventsHaveStrict (l : SelectorFilterLookup) : Bool :=
  match l.events with
  | some d => d.any (fun p => queryHasStrict p.2.query)
  | none => false

/-- The canonical sort `lookupToSelector` applies to the events record
(`sortObject(events)`: keys sorted, each filter's `vars` sorted recursively). -/
def lookupSortEvents (d : List (String × JsonpathFilter)) : List (String × JsonpathFilter) :=
  sortPairs (d.map (fun p => (p.1, ⟨p.2.query, p.2.vars.map sortObject⟩)))

/-- `lookupToSelector` of api/selectors-endpoints.ts: reject a strict meta
query (422), parse `after` (400 when malformed), collect strict errors over
the event queries (422), else build the filter selector. -/
def lookupToSelector (l : SelectorFilterLookup) : Except HttpErr Selector :=
  if metaHasStrict l then
    .error (unprocessable (sq ++ "strict" ++ sq ++ " keyword unsupported in Evently"
      ++ sq ++ "s SQL JSONPath meta filter"))
  else
    match maybeFromEventIdString l.after with
    | .error e => .error e
    | .ok after =>
      match l.events with
      | some d =>
        let errors := strictEventErrors d
        if errors.isEmpty then
          .ok ⟨l.entities, l.meta, some (lookupSortEvents d), after, l.limit⟩
        else .error (unprocessable (String.intercalate "\n" errors))
      | none => .ok ⟨l.entities, l.meta, none, after, l.limit⟩

/-- The error thrown for a strict meta query. -/
def strictMetaErr : HttpErr :=
  unprocessable (sq ++ "strict" ++ sq ++ " keyword unsupported in Evently"
    ++ sq ++ "s SQL JSONPath meta filter")

/-- A lookup whose meta query uses the strict keyword. -/
def strictLookup : SelectorFilterLookup := { meta := some ⟨"strict $.a", none⟩ }

/-- C8 counterexample: a lookup whose meta query begins with `strict` is
rejected with 422 Unprocessable, not with the 400 Bad-input error the claim
asserts. -/
theorem C8_strict_rejected_counterexample :
    lookupToSelector strictLookup = .error strictMetaErr ∧
    strictMetaErr.status = 422 ∧ strictMetaErr.status ≠ 400 :=
  ⟨rfl, rfl, by decide⟩

/-- C8 (amended): a lookup whose meta query — or, when the `after` id parses,
any per-event data query — begins (after leading whitespace) with the
JSONPath keyword `strict` is rejected with an HTTP 422 Unprocessable error. -/
theorem C8_strict_rejected (l : SelectorFilterLookup)
    (h : metaHasStrict l = true ∨
      ((∃ a, maybeFromEventIdString l.after = .ok a) ∧ eventsHaveStrict l = true)) :
    ∃ err, lookupToSelector l = .error err ∧ err.status = 422 := by
  unfold lookupToSelector
  by_cases hm : metaHasStrict l = true
  · rw [if_pos hm]
    exact ⟨_, rfl, rfl⟩
  · rw [if_neg hm]
    rcases h with h | ⟨⟨a, ha⟩, hev⟩
    · exact absurd h hm
    · rw [ha]
      unfold eventsHaveStrict at hev
      cases hd : l.events with
      | none => rw [hd] at hev; exact absurd hev (by simp)
      | some d =>
        rw [hd] at hev
        have hne : ¬ (strictEventErrors d).isEmpty = true := by
          rw [List.isEmpty_iff]
          unfold strictEventErrors
          intro hnil
          rw [List.map_eq_nil_iff, List.filter_eq_nil_iff] at hnil
          rw [List.any_eq_true] at hev
          obtain ⟨p, hp, hps⟩ := hev
          exact (hnil p hp) hps
        simp only [hne, if_false]
        exact ⟨_, rfl, rfl⟩

theorem C8_strict_rejected_witness :
    metaHasStrict strictLookup = true ∧
    (∃ err, lookupToSelector strictLookup = .error err ∧ err.status = 422) :=
  ⟨by rfl, C8_strict_rejected strictLookup (Or.inl (by rfl))⟩

/-! ### notify/channel.ts and api/notify-endpoints.ts: subscriptions -/

/-- A channel's subscription filter entry `{id, selector, matcher}`; the
compiled matcher is `createMatcher` of the stored selector and carries no
extra state, so the model keeps id and selector. -/
structure SubscriptionFilter where
  id : String
  selector : Selector
deriving Repr

/-- A channel's filter map, keyed by the encoded canonical selector. -/
abbrev FilterMap := List (String × SubscriptionFilter)

/-- `findFilter` of channel.ts: first entry whose filter id matches. -/
def findFilter (filters : FilterMap) (subscriptionId : String) :
    Option (String × SubscriptionFilter) :=
  filters.find? (fun p => p.2.id == subscriptionId)

/-- `handleUnsubscribe` of channel.ts: delete the entry when found, silently
do nothing otherwise. -/
def handleUnsubscribe (filters : FilterMap) (subscriptionId : String) : FilterMap :=
  match findFilter filters subscriptionId with
  | some f => mapDelete filters f.1
  | none => filters

/-- `getSubscription` of channel.ts. -/
def getSubscription (filters : FilterMap) (subscriptionId : String) : Option Selector :=
  (findFilter filters subscriptionId).map (fun f => f.2.selector)

/-- Channel state held in the process-wide channels map (the weakly-held SSE
iterator set is runtime-only and not part of the data model). -/
structure ChannelState where
  filters : FilterMap
deriving Repr

/-- The `(ledgerId, channelId) → Channel` map (notify subsystem init). -/
abbrev ChannelsMap := List (String × ChannelState)

/-- `createKey` of the channels map. -/
def channelsKey (ledgerId channelId : String) : String := ledgerId ++ "|" ++ channelId

/-- `getChannel`: 404 when the channel does not exist. -/
def getChannel (channels : ChannelsMap) (ledgerId channelId : String) :
    Except HttpErr ChannelState :=
  match lookupKey channels (channelsKey ledgerId channelId) with
  | some c => .ok c
  | none => .error (notFound ("channel " ++ channelId ++ " does not exist."))

/-- `channels.unsubscribe`: resolve the channel (404 when unknown) and run
the channel's unsubscribe, whose mutation is modelled by writing the updated
channel back. -/
def channelsUnsubscribe (channels : ChannelsMap) (ledgerId channelId sid : String) :
    Except HttpErr ChannelsMap :=
  match getChannel channels ledgerId channelId with
  | .error e => .error e
  | .ok c => .ok (mapSet channels (channelsKey ledgerId channelId)
      ⟨handleUnsubscribe c.filters sid⟩)

/-- `initHandleDeleteSubscription` of notify-endpoints.ts: unsubscribe, then
reply 204 — no check that the subscription id existed. -/
def handleDeleteSubscription (channels : ChannelsMap) (ledgerId channelId sid : String) :
    Except HttpErr (Nat × ChannelsMap) :=
  match channelsUnsubscribe channels ledgerId channelId sid with
  | .error e => .error e
  | .ok cs => .ok (204, cs)

/-- `initHandleGetSubscription` of notify-endpoints.ts: 404 when the channel
has no such subscription. -/
def handleGetSubscription (channels : ChannelsMap) (ledgerId channelId sid : String) :
    Except HttpErr Selector :=
  match getChannel channels ledgerId channelId with
  | .error e => .error e
  | .ok c =>
    match getSubscription c.filters sid with
    | some sel => .ok sel
    | none => .error (notFound ("No subscription for channel " ++ channelId
        ++ ", subscription " ++ sid))

/-- A channels map with one ledger-L channel C holding no subscriptions. -/
def oneEmptyChannel : ChannelsMap := [("L|C", ⟨[]⟩)]

/-- C9 counterexample: DELETE of an unknown subscription id on an existing
channel replies 204 with the channel unchanged — it does not fail with 404 as
the claim asserts. -/
theorem C9_delete_unknown_subscription_counterexample :
    handleDeleteSubscription oneEmptyChannel "L" "C" "S" = .ok (204, oneEmptyChannel) :=
  rfl

/-- C9 (amended): for a subscription id not held by a channel, GET replies
404 Not Found, but DELETE replies 204 as a silent no-op that leaves the
channel's filters unchanged; DELETE replies 404 only when the channel itself
is unknown. -/
theorem C9_unknown_subscription (channels : ChannelsMap) (lid cid sid : String)
    (c : ChannelState) (hc : lookupKey channels (channelsKey lid cid) = some c)
    (hsid : findFilter c.filters sid = none) :
    handleGetSubscription channels lid cid sid
      = .error (notFound ("No subscription for channel " ++ cid
          ++ ", subscription " ++ sid)) ∧
    handleDeleteSubscription channels lid cid sid
      = .ok (204, mapSet channels (channelsKey lid cid) c) ∧
    (∀ lid2 cid2 sid2, lookupKey channels (channelsKey lid2 cid2) = none →
      handleDeleteSubscription channels lid2 cid2 sid2
        = .error (notFound ("channel " ++ cid2 ++ " does not exist."))) := by
  refine ⟨?_, ?_, ?_⟩
  · unfold handleGetSubscription getChannel
    rw [hc]
    dsimp only
    unfold getSubscription
    rw [hsid]
    rfl
  · unfold handleDeleteSubscription channelsUnsubscribe getChannel
    rw [hc]
    dsimp only
    unfold handleUnsubscribe
    rw [hsid]
  · intro lid2 cid2 sid2 h2
    unfold handleDeleteSubscription channelsUnsubscribe getChannel
    rw [h2]

theorem C9_unknown_subscription_witness :
    lookupKey oneEmptyChannel (channelsKey "L" "C") = some ⟨[]⟩ ∧
    findFilter (ChannelState.mk []).filters "S" = none ∧
    (handleGetSubscription oneEmptyChannel "L" "C" "S"
        = .error (notFound ("No subscription for channel " ++ "C"
            ++ ", subscription " ++ "S")) ∧
      handleDeleteSubscription oneEmptyChannel "L" "C" "S"
        = .ok (204, mapSet oneEmptyChannel (channelsKey "L" "C") ⟨[]⟩) ∧
      (∀ lid2 cid2 sid2, lookupKey oneEmptyChannel (channelsKey lid2 cid2) = none →
        handleDeleteSubscription oneEmptyChannel lid2 cid2 sid2
          = .error (notFound ("channel " ++ cid2 ++ " does not exist.")))) :=
  ⟨rfl, rfl,
    C9_unknown_subscription oneEmptyChannel "L" "C" "S" ⟨[]⟩ rfl rfl⟩

/-! ### event-source/postgres-selector.ts: batched selector execution -/

/-- `EVENT_BATCH_SIZE`. -/
def EVENT_BATCH_SIZE : Nat := 100

/-- An event row as `run_selector` / `fetch_selected` return it. -/
structure EventRow where
  timestamp : Nat
  checksum : Nat
  event : String
  entities : List (String × List String)
  meta : JsonVal
  data : JsonVal
deriving Repr

/-- `eventRowToPersistedEvent` (the ISO text of the timestamp is the js-joda
rendering of the microsecond instant; the model carries the microseconds). -/
def eventRowToPersistedEvent (ledgerId : String) (row : EventRow) : PersistedEvent :=
  ⟨toEventIdString row.timestamp row.checksum ledgerId, row.timestamp, row.event,
    row.entities, row.meta, row.data⟩

/-- Modelled from the spec: `evently.fetch_selected(ledger, afterTs, limit,
predicate)` returns the next `limit` predicate-matching rows strictly after
`afterTs`; `db` is the ledger's matching rows in stream order. -/
def fetch_selected (db : List EventRow) (after : Nat) (limit : Nat) : List EventRow :=
  (db.filter (fun r => decide (after < r.timestamp))).take limit

/-- Is the remaining total limit still positive?  `none` models the JS
`Infinity` the loop converts a zero limit into. -/
def tlPos : Option Nat → Bool
  | none => true
  | some n => decide (0 < n)

/-- `totalLimit -= rows.length` (`Infinity` never decreases). -/
def tlSub : Option Nat → Nat → Option Nat
  | none, _ => none
  | some n, k => some (n - k)

/-- `Math.min(totalLimit, EVENT_BATCH_SIZE)`. -/
def fetchLimit : Option Nat → Nat
  | none => EVENT_BATCH_SIZE
  | some n => min n EVENT_BATCH_SIZE

/-- `fetchRows` of postgres-selector.ts. -/
def fetchRows (db : List EventRow) (after : Nat) (totalLimit : Option Nat) :
    List EventRow :=
  fetch_selected db after (fetchLimit totalLimit)

theorem filter_length_le (p q : α → Bool) (himp : ∀ x, q x = true → p x = true) :
    ∀ l : List α, (l.filter q).length ≤ (l.filter p).length := by
  intro l
  induction l with
  | nil => simp
  | cons b l2 ih =>
    cases hqb : q b with
    | true =>
      have hpb := himp b hqb
      simp [List.filter_cons, hqb, hpb]
      omega
    | false =>
      cases hpb : p b with
      | true =>
        simp [List.filter_cons, hqb, hpb]
        omega
      | false =>
        simpa [List.filter_cons, hqb, hpb] using ih

theorem filter_length_lt {p q : α → Bool} (himp : ∀ x, q x = true → p x = true)
    {x0 : α} {l : List α} (hmem : x0 ∈ l) (hp : p x0 = true) (hq : q x0 = false) :
    (l.filter q).length < (l.filter p).length := by
  induction l with
  | nil => exact absurd hmem (List.not_mem_nil x0)
  | cons b l2 ih =>
    rcases List.mem_cons.mp hmem with rfl | hml
    · have hle := filter_length_le p q himp l2
      simp [List.filter_cons, hp, hq]
      omega
    · have hlt := ih hml
      cases hqb : q b with
      | true =>
        have hpb := himp b hqb
        simp [List.filter_cons, hqb, hpb]
        omega
      | false =>
        cases hpb : p b with
        | true =>
          simp [List.filter_cons, hqb, hpb]
          omega
        | false =>
          simpa [List.filter_cons, hqb, hpb] using hlt

/-- The while-loop of `selectEvents`: fetch up to `min(totalLimit, 100)` rows
after `after`, yield them, and continue from the last row's timestamp with
the decremented limit, until a fetch is empty or the limit reaches zero.
(`rows` of the source is `fetchRows db after totalLimit`.) -/
def selectLoop (db : List EventRow) (after : Nat) (totalLimit : Option Nat) :
    List EventRow :=
  if tlPos totalLimit then
    match hr : (fetchRows db after totalLimit).getLast? with
    | some lastRow =>
      fetchRows db after totalLimit
        ++ selectLoop db lastRow.timestamp
            (tlSub totalLimit (fetchRows db after totalLimit).length)
    | none => []
  else []
termination_by (db.filter (fun r => decide (after < r.timestamp))).length
decreasing_by
  have hmemRows := List.mem_of_getLast?_eq_some hr
  rw [fetchRows, fetch_selected] at hmemRows
  have hmemF : lastRow ∈ db.filter (fun r => decide (after < r.timestamp)) :=
    List.mem_of_mem_take hmemRows
  obtain ⟨hdb, hdec⟩ := List.mem_filter.mp hmemF
  refine filter_length_lt ?_ hdb hdec (decide_eq_false (lt_irrefl _))
  intro x hx
  exact decide_eq_true (lt_trans (of_decide_eq_true hdec) (of_decide_eq_true hx))

/-- `selectEvents` of postgres-selector.ts: a zero total limit becomes
`Infinity` (`none`), then the loop runs. -/
def selectEvents (db : List EventRow) (startTimestamp : Nat) (totalLimit : Nat) :
    List EventRow :=
  selectLoop db startTimestamp (if totalLimit = 0 then none else some totalLimit)

/-- `continueSelector` of postgres-selector.ts: a first batch shorter than
`EVENT_BATCH_SIZE` means all events are present; otherwise continue from the
last row of the first batch (`firstBatch.at(-1)`, never absent there). -/
def continueSelector (db : List EventRow) (ledgerId : String) (limit : Nat)
    (firstBatch : List EventRow) : List PersistedEvent :=
  if firstBatch.length < EVENT_BATCH_SIZE then
    firstBatch.map (eventRowToPersistedEvent ledgerId)
  else
    match firstBatch.getLast? with
    | some lastRow =>
      (firstBatch ++ selectEvents db lastRow.timestamp limit).map
        (eventRowToPersistedEvent ledgerId)
    | none => firstBatch.map (eventRowToPersistedEvent ledgerId)

/-- `l.take n`, with `none` as no bound. -/
def takeTl : Option Nat → List EventRow → List EventRow
  | none, l => l
  | some n, l => l.take n

theorem take_append_drop_len (l : List α) (n : Nat) :
    l.take n ++ l.drop (l.take n).length = l := by
  by_cases h : l.length ≤ n
  · rw [List.take_of_length_le h, List.drop_length, List.append_nil]
  · rw [List.length_take, Nat.min_eq_left (le_of_lt (not_le.mp h))]
    exact List.take_append_drop n l

theorem sorted_filter_drop :
    ∀ (l : List EventRow), l.Pairwise (fun a b => a.timestamp < b.timestamp) →
    ∀ (k : Nat) (lastRow : EventRow), (l.take k).getLast? = some lastRow →
    l.filter (fun r => decide (lastRow.timestamp < r.timestamp))
      = l.drop (l.take k).length := by
  intro l
  induction l with
  | nil =>
    intro _ k lastRow h
    simp at h
  | cons x xs ih =>
    intro hs k lastRow h
    obtain ⟨hxall, hxs⟩ := List.pairwise_cons.mp hs
    cases k with
    | zero => simp at h
    | succ k2 =>
      rw [List.take_succ_cons] at h ⊢
      by_cases h2 : xs.take k2 = []
      · rw [h2] at h
        have hx : lastRow = x := by
          rw [List.getLast?_singleton] at h
          exact ((Option.some.injEq _ _).mp h).symm
        subst hx
        rw [h2, List.filter_cons]
        have hfx : decide (lastRow.timestamp < lastRow.timestamp) = false :=
          decide_eq_false (lt_irrefl _)
        rw [hfx]
        simp only [Bool.false_eq_true, if_false, List.length_cons, List.length_nil,
          List.drop_succ_cons, List.drop_zero]
        exact List.filter_eq_self.mpr (fun a ha => decide_eq_true (hxall a ha))
      · obtain ⟨y, ys, hys⟩ := List.exists_cons_of_ne_nil h2
        rw [hys, List.getLast?_cons_cons] at h
        have hbase : (xs.take k2).getLast? = some lastRow := by
          rw [hys]
          exact h
        have hih := ih hxs k2 lastRow hbase
        have hmem : lastRow ∈ xs :=
          List.mem_of_mem_take (List.mem_of_getLast?_eq_some hbase)
        have hlt : x.timestamp < lastRow.timestamp := hxall lastRow hmem
        have hfx : decide (lastRow.timestamp < x.timestamp) = false :=
          decide_eq_false (by omega)
        rw [List.filter_cons, hfx]
        simp only [Bool.false_eq_true, if_false, List.length_cons,
          List.drop_succ_cons]
        exact hih

theorem filter_after_last {db : List EventRow} {after : Nat} {lastRow : EventRow}
    (hlt : after < lastRow.timestamp) :
    db.filter (fun r => decide (lastRow.timestamp < r.timestamp))
      = (db.filter (fun r => decide (after < r.timestamp))).filter
          (fun r => decide (lastRow.timestamp < r.timestamp)) := by
  rw [List.filter_filter]
  refine List.filter_congr ?_
  intro x _
  cases hx : decide (lastRow.timestamp < x.timestamp) with
  | true =>
    have h1 := of_decide_eq_true hx
    have h2 : decide (after < x.timestamp) = true := decide_eq_true (by omega)
    rw [h2]
    rfl
  | false => rfl

theorem selectLoop_eq_aux (db : List EventRow)
    (hs : db.Pairwise (fun a b => a.timestamp < b.timestamp)) :
    ∀ (N : Nat) (after : Nat) (tl : Option Nat),
      (db.filter (fun r => decide (after < r.timestamp))).length ≤ N →
      selectLoop db after tl
        = takeTl tl (db.filter (fun r => decide (after < r.timestamp))) := by
  intro N
  induction N with
  | zero =>
    intro after tl hN
    have hF : db.filter (fun r => decide (after < r.timestamp)) = [] :=
      List.length_eq_zero.mp (Nat.le_zero.mp hN)
    rw [selectLoop]
    by_cases ht : tlPos tl = true
    · rw [if_pos ht]
      have hrows : fetchRows db after tl = [] := by
        rw [fetchRows, fetch_selected, hF, List.take_nil]
      split
      · rename_i lastRow hr
        rw [hrows] at hr
        exact absurd hr (by simp)
      · rw [hF]
        cases tl with
        | none => rfl
        | some n => simp [takeTl]
    · rw [if_neg ht]
      cases tl with
      | none => exact absurd rfl ht
      | some n =>
        have hn : n = 0 := by
          by_contra hn0
          exact ht (by simp [tlPos, Nat.pos_of_ne_zero hn0])
        subst hn
        simp [takeTl]
  | succ N ih =>
    intro after tl hN
    rw [selectLoop]
    by_cases ht : tlPos tl = true
    · rw [if_pos ht]
      split
      · rename_i lastRow hr
        have hmemRows := List.mem_of_getLast?_eq_some hr
        rw [fetchRows, fetch_selected] at hmemRows
        have hmemF : lastRow ∈ db.filter (fun r => decide (after < r.timestamp)) :=
          List.mem_of_mem_take hmemRows
        obtain ⟨hdb, hdec⟩ := List.mem_filter.mp hmemF
        have haft : after < lastRow.timestamp := of_decide_eq_true hdec
        have hFs : (db.filter (fun r => decide (after < r.timestamp))).Pairwise
            (fun a b => a.timestamp < b.timestamp) := List.Pairwise.filter _ hs
        have hdropEq : db.filter (fun r => decide (lastRow.timestamp < r.timestamp))
            = (db.filter (fun r => decide (after < r.timestamp))).drop
                ((db.filter (fun r => decide (after < r.timestamp))).take
                  (fetchLimit tl)).length := by
          rw [filter_after_last haft]
          exact sorted_filter_drop _ hFs (fetchLimit tl) lastRow
            (by rw [← fetch_selected, ← fetchRows]; exact hr)
        have hlenle : (db.filter (fun r =>
            decide (lastRow.timestamp < r.timestamp))).length ≤ N := by
          rw [hdropEq, List.length_drop]
          have hne : fetchRows db after tl ≠ [] := by
            intro h0
            rw [h0] at hr
            exact absurd hr (by simp)
          have hpos : 0 < (fetchRows db after tl).length :=
            List.length_pos.mpr hne
          rw [fetchRows, fetch_selected] at hpos
          omega
        rw [ih lastRow.timestamp
          (tlSub tl (fetchRows db after tl).length) hlenle, hdropEq]
        rw [fetchRows, fetch_selected]
        cases tl with
        | none =>
          simp only [tlSub, takeTl, fetchLimit]
          exact take_append_drop_len _ EVENT_BATCH_SIZE
        | some n =>
          simp only [tlSub, takeTl, fetchLimit]
          by_cases hlen : (db.filter (fun r => decide (after < r.timestamp))).length
              ≤ min n EVENT_BATCH_SIZE
          · rw [List.take_of_length_le hlen]
            rw [List.take_of_length_le
              (le_trans hlen (Nat.min_le_left n EVENT_BATCH_SIZE))]
            rw [List.drop_length]
            simp
          · have hmin : ((db.filter (fun r =>
                decide (after < r.timestamp))).take (min n EVENT_BATCH_SIZE)).length
                = min n EVENT_BATCH_SIZE := by
              rw [List.length_take]
              exact Nat.min_eq_left (le_of_lt (not_le.mp hlen))
            rw [hmin]
            have hsplit := List.take_add
              (db.filter (fun r => decide (after < r.timestamp)))
              (min n EVENT_BATCH_SIZE) (n - min n EVENT_BATCH_SIZE)
            have harith : min n EVENT_BATCH_SIZE + (n - min n EVENT_BATCH_SIZE) = n := by
              have := Nat.min_le_left n EVENT_BATCH_SIZE
              omega
            rw [harith] at hsplit
            exact hsplit.symm
      · rename_i hr
        have hrows : fetchRows db after tl = [] := by
          cases h0 : fetchRows db after tl with
          | nil => rfl
          | cons a l2 =>
            rw [h0, List.getLast?_eq_none_iff] at hr
            exact absurd hr (by simp)
        have hF : db.filter (fun r => decide (after < r.timestamp)) = [] := by
          rw [fetchRows, fetch_selected] at hrows
          have hlim : 0 < fetchLimit tl := by
            cases tl with
            | none => simp [fetchLimit, EVENT_BATCH_SIZE]
            | some n =>
              have hn : 0 < n := by simpa [tlPos] using ht
              simp [fetchLimit, EVENT_BATCH_SIZE]
              omega
          cases hFc : db.filter (fun r => decide (after < r.timestamp)) with
          | nil => rfl
          | cons a l2 =>
            rw [hFc] at hrows
            cases hl : fetchLimit tl with
            | zero => omega
            | succ m =>
              rw [hl] at hrows
              simp [List.take_succ_cons] at hrows
        rw [hF]
        cases tl with
        | none => rfl
        | some n => simp [takeTl]
    · rw [if_neg ht]
      cases tl with
      | none => exact absurd rfl ht
      | some n =>
        have hn : n = 0 := by
          by_contra hn0
          exact ht (by simp [tlPos, Nat.pos_of_ne_zero hn0])
        subst hn
        simp [takeTl]

/-- C5: when the first `run_selector` batch is shorter than 100 rows, the
result stream is exactly its translation to `PersistedEvent`s, with no
continuation rows; otherwise the service emits the first batch and the
continuation loop — rolling `fetch_selected` batches of `min(remaining, 100)`
from the last yielded row's timestamp, until an empty batch or an exhausted
limit, `limit == 0` unbounded — yields exactly the matching rows after the
first batch's last timestamp, truncated to the limit. -/
theorem C5_selector_batching (db : List EventRow) (ledgerId : String) (limit : Nat)
    (firstBatch : List EventRow)
    (hs : db.Pairwise (fun a b => a.timestamp < b.timestamp)) :
    (firstBatch.length < EVENT_BATCH_SIZE →
      continueSelector db ledgerId limit firstBatch
        = firstBatch.map (eventRowToPersistedEvent ledgerId)) ∧
    (∀ lastRow, ¬ firstBatch.length < EVENT_BATCH_SIZE →
      firstBatch.getLast? = some lastRow →
      continueSelector db ledgerId limit firstBatch
        = (firstBatch ++ takeTl (if limit = 0 then none else some limit)
            (db.filter (fun r => decide (lastRow.timestamp < r.timestamp)))).map
            (eventRowToPersistedEvent ledgerId)) := by
  constructor
  · intro h
    rw [continueSelector, if_pos h]
  · intro lastRow h hlast
    rw [continueSelector, if_neg h, hlast]
    dsimp only
    rw [selectEvents, selectLoop_eq_aux db hs
      (db.filter (fun r =>
        decide (lastRow.timestamp < r.timestamp))).length lastRow.timestamp
      (if limit = 0 then none else some limit) (le_refl _)]

theorem C5_selector_batching_witness :
    ((([] : List EventRow).length < EVENT_BATCH_SIZE →
      continueSelector [] "0000abcd" 7 []
        = ([] : List EventRow).map (eventRowToPersistedEvent "0000abcd")) ∧
    (∀ lastRow, ¬ ([] : List EventRow).length < EVENT_BATCH_SIZE →
      ([] : List EventRow).getLast? = some lastRow →
      continueSelector [] "0000abcd" 7 []
        = (([] : List EventRow) ++ takeTl (if 7 = 0 then none else some 7)
            (([] : List EventRow).filter
              (fun r => decide (lastRow.timestamp < r.timestamp)))).map
            (eventRowToPersistedEvent "0000abcd"))) :=
  C5_selector_batching [] "0000abcd" 7 [] List.Pairwise.nil

end Evently

